import Mathlib

/-!
# A MIPS-like emulator (`pa2.c`): shallow embedding and verified properties

The machine of `pa2.c` is three process-wide variables: `memory[1 << 20]`
(bytes), `registers[32]` (`unsigned int`) and `pc` (`unsigned int`).  They are
packaged here as one record that every function receives and returns.

Conventions of the embedding:

* `unsigned int` values are natural numbers; every arithmetic result that C
  computes in `unsigned int` is reduced with `u32` (the residue modulo `2^32`).
* `int` values are integers; `to_int` is the conversion of a 32-bit pattern to
  `int` (two's complement).
* a left shift of an `int` that reaches the sign bit (`1 << 31`,
  `memory[t] << 24`) is taken as its 32-bit pattern, and a right shift of a
  negative `int` is the arithmetic shift, as on every two's complement target.
* an array access outside `memory[0 .. 2^20)` is undefined behaviour in C; the
  embedding returns `none` there.
* the switch statements are chains of `if`, every case ending in its `break`;
  the three branches of `process_instruction` (r-format, j-format, i-format)
  are separate definitions that `process_instruction` dispatches to.
* `fopen`, `fgets` and `strtoimax` are library calls: `load_program` receives
  the lines that `fgets` delivers and the parser as arguments.
-/

namespace PA2

/-! ## Machine integers -/

/-- Residue modulo `2^32`: the value an `unsigned int` holds after C converts or
wraps the mathematical result `x`. -/
def u32 (x : Int) : Nat := (x % 4294967296).toNat

/-- Conversion of the 32-bit pattern of `x` to C `int` (two's complement). -/
def to_int (x : Int) : Int :=
  if 2147483648 ≤ x % 4294967296 then x % 4294967296 - 4294967296 else x % 4294967296

/-! ## Machine state -/

/-- The three globals of `pa2.c`: `registers[]`, `memory[]` and `pc`. -/
structure Machine where
  registers : Nat → Nat
  memory : Nat → Nat
  pc : Nat

/-- Size of `memory[]`: `1 << 20` bytes. -/
def MEMORY_SIZE : Nat := 1048576

/-- Initial value for the PC register. -/
def INITIAL_PC : Nat := 0x1000

/-- Initial location for the stack pointer. -/
def INITIAL_SP : Nat := 0x8000

/-- The halt pseudo instruction. -/
def HALT : Nat := 0xFFFFFFFF

/-- Initializer of `memory[]`; the remaining bytes are zero. -/
def initial_memory_bytes : List Nat :=
  [0x00, 0x11, 0x22, 0x33, 0x44, 0x55, 0x66, 0x77,
   0xde, 0xad, 0xbe, 0xef, 0x00, 0x00, 0x00, 0x00,
   104, 101, 108, 108, 111, 32, 119, 111, 114, 108, 100, 33, 33, 0x00, 0x00, 0x00,
   97, 119, 101, 115, 111, 109, 101, 32, 99, 111, 109, 112, 117, 116, 101, 114, 32,
   97, 114, 99, 104, 105, 116, 101, 99, 116, 117, 114, 101, 46, 0x00, 0x00]

/-- Initializer of `registers[]`. -/
def initial_register_values : List Nat :=
  [0, 0, 0, 0, 0, 0, 0, 0,
   0, 0, 0, 0, 0, 0, 0, 0,
   0x10, INITIAL_PC, 0x20, 3, 0xbadacafe, 0xcdcdcdcd, 0xffffffff, 7,
   0, 0, 0, 0, 0, INITIAL_SP, 0, 0]

/-- The machine at program start. -/
def initial_machine : Machine where
  registers := fun i => initial_register_values.getD i 0
  memory := fun a => initial_memory_bytes.getD a 0
  pc := INITIAL_PC

/-- Assignment `registers[i] = v`. -/
def set_reg (s : Machine) (i v : Nat) : Machine :=
  { s with registers := fun j => if j = i then v else s.registers j }

/-- Assignment `pc = v`. -/
def set_pc (s : Machine) (v : Nat) : Machine :=
  { s with pc := v }

/-- Read of `memory[a]`; undefined outside the array. -/
def read_byte (s : Machine) (a : Int) : Option Nat :=
  if a < 0 ∨ (MEMORY_SIZE : Int) ≤ a then none else some (s.memory a.toNat)

/-- Assignment `memory[a] = b`; undefined outside the array. -/
def write_byte (s : Machine) (a : Int) (b : Nat) : Option Machine :=
  if a < 0 ∨ (MEMORY_SIZE : Int) ≤ a then none
  else some { s with memory := fun j => if j = a.toNat then b else s.memory j }

/-- The expression
`(memory[a] << 24) | (memory[a1] << 16) | (memory[a2] << 8) | memory[a3]`
used by `lw` and by the fetch of `run_program`, as a 32-bit pattern. -/
def read_word (s : Machine) (a a1 a2 a3 : Int) : Option Nat := do
  let b0 ← read_byte s a
  let b1 ← read_byte s a1
  let b2 ← read_byte s a2
  let b3 ← read_byte s a3
  pure (u32 ((b0 <<< 24) ||| (b1 <<< 16) ||| (b2 <<< 8) ||| b3 : Nat))

/-! ## `process_instruction` -/

/-- The statement `if (immediate >= 0x00008000) immediate += 0xFFFF0000;` on the
`int immediate`: the sum is computed in `unsigned int` and converted back. -/
def sign_extend (immediate : Nat) : Int :=
  if immediate ≥ 0x00008000 then to_int (immediate + 0xFFFF0000 : Nat) else immediate

/-- The loop `while (shamt > 0) { registers[rd] += (1 << (32 - shamt)); shamt--; }`
of `sra`, on the value of `registers[rd]`. -/
def sra_loop : Nat → Nat → Nat
  | 0, acc => acc
  | shamt + 1, acc =>
    sra_loop shamt (u32 (acc + to_int ((1 <<< (32 - (shamt + 1)) : Nat) : Int)))

/-- The branch `if (opcode == 0)` of `process_instruction`: the `switch (funct)`
over the r-format instructions. -/
def r_format (funct rs rt rd shamt : Nat) (s : Machine) : Option (Int × Machine) :=
  if funct = 0x20 then -- add
    some (1, set_reg s rd (u32 (s.registers rs + s.registers rt : Nat)))
  else if funct = 0x22 then -- sub
    some (1, set_reg s rd (u32 ((s.registers rs : Int) - s.registers rt)))
  else if funct = 0x24 then -- and
    some (1, set_reg s rd (s.registers rs &&& s.registers rt))
  else if funct = 0x25 then -- or
    some (1, set_reg s rd (s.registers rs ||| s.registers rt))
  else if funct = 0x27 then -- nor
    some (1, set_reg s rd (u32 (-1 - ((s.registers rs ||| s.registers rt : Nat) : Int))))
  else if funct = 0x00 then -- sll
    some (1, set_reg s rd (u32 (s.registers rt <<< shamt : Nat)))
  else if funct = 0x02 then -- srl
    some (1, set_reg s rd (s.registers rt >>> shamt))
  else if funct = 0x03 then -- sra
    if s.registers rt < u32 (to_int ((1 <<< 31 : Nat) : Int)) then
      some (1, set_reg s rd (s.registers rt >>> shamt))
    else
      some (1, set_reg s rd (sra_loop shamt (s.registers rt >>> shamt)))
  else if funct = 0x2a then -- slt
    some (1, set_reg s rd
      (if to_int (s.registers rs) < to_int (s.registers rt) then 1 else 0))
  else if funct = 0x08 then -- jr
    some (1, set_pc s (s.registers rs))
  else
    some (1, s)

/-- The branch `else if (opcode == 0x02 || opcode == 0x03)` of
`process_instruction`: `j` and `jal`. -/
def j_format (opcode address : Nat) (s : Machine) : Option (Int × Machine) :=
  let top : Int := to_int ((s.pc &&& 0x10000000 : Nat) : Int)
  if opcode = 0x02 then
    some (1, set_pc s (u32 (top + ((address <<< 2 : Nat) : Int))))
  else if opcode = 0x03 then
    let s1 := set_reg s 31 s.pc
    some (1, set_pc s1 (u32 (top + ((address <<< 2 : Nat) : Int))))
  else
    some (1, s)

/-- The final `else` branch of `process_instruction`: the `switch (opcode)` over
the i-format instructions. -/
def i_format (opcode rs rt immediate : Nat) (s : Machine) : Option (Int × Machine) :=
  if opcode = 0x08 then -- addi
    some (1, set_reg s rt (u32 (s.registers rs + sign_extend immediate)))
  else if opcode = 0x0c then -- andi
    some (1, set_reg s rt (s.registers rs &&& immediate))
  else if opcode = 0x0d then -- ori
    some (1, set_reg s rt (s.registers rs ||| immediate))
  else if opcode = 0x23 then -- lw
    let t : Int := to_int (s.registers rs + sign_extend immediate)
    (read_word s t (t + 1) (t + 2) (t + 3)).map fun w => (1, set_reg s rt w)
  else if opcode = 0x2b then -- sw
    let target : Int := to_int (s.registers rs + sign_extend immediate)
    let v := s.registers rt
    ((((write_byte s target ((v >>> (24 - 8 * 0)) &&& 0xFF)).bind
      fun s1 => write_byte s1 (target + 1) ((v >>> (24 - 8 * 1)) &&& 0xFF)).bind
      fun s2 => write_byte s2 (target + 2) ((v >>> (24 - 8 * 2)) &&& 0xFF)).bind
      fun s3 => write_byte s3 (target + 3) ((v >>> (24 - 8 * 3)) &&& 0xFF)).map
      fun s4 => (1, s4)
  else if opcode = 0x0a then -- slti
    some (1, set_reg s rt
      (if to_int (s.registers rs) < sign_extend immediate then 1 else 0))
  else if opcode = 0x04 then -- beq
    if s.registers rs = s.registers rt then
      some (1, set_pc s (u32 (s.pc + 4 * sign_extend immediate)))
    else some (1, s)
  else if opcode = 0x05 then -- bne
    if s.registers rs ≠ s.registers rt then
      some (1, set_pc s (u32 (s.pc + 4 * sign_extend immediate)))
    else some (1, s)
  else
    some (1, s)

/-- Execution of the machine code `instr`: the return value and the machine
afterwards, `none` when a memory access falls outside `memory[]`. -/
def process_instruction (instr : Nat) (s : Machine) : Option (Int × Machine) :=
  let opcode := instr >>> 26
  let funct := instr &&& 0x3F
  let rs := (instr >>> 21) &&& 0x1F
  let rt := (instr >>> 16) &&& 0x1F
  let rd := (instr >>> 11) &&& 0x1F
  let shamt := (instr >>> 6) &&& 0x1F
  let immediate := instr &&& 0x0000FFFF
  let address := instr &&& 0x03FFFFFF
  if instr = 0xFFFFFFFF then -- halt
    some (0, s)
  else if opcode = 0 then
    r_format funct rs rt rd shamt s
  else if opcode = 0x02 ∨ opcode = 0x03 then
    j_format opcode address s
  else
    i_format opcode rs rt immediate s

/-- The target address of `lw` and `sw`: `registers[rs] + immediate` after sign
extension, as the `int` that indexes `memory[]`. -/
def target_address (instr : Nat) (s : Machine) : Int :=
  to_int (s.registers ((instr >>> 21) &&& 0x1F) + sign_extend (instr &&& 0x0000FFFF))

/-! ## `load_program` -/

/-- Value of `EINVAL` in `errno.h` (Linux). -/
def EINVAL : Int := 22

/-- The expression `(line_number >> k) & 0xFF` on the `int line_number`: `>>` is
the arithmetic shift and `& 0xFF` keeps the low eight bits of the two's
complement pattern, the residue modulo 256. -/
def int_byte (line_number : Int) (k : Nat) : Nat :=
  ((line_number >>> k) % 256).toNat

/-- The loop
`for (int i = 0; i < 4; ++i) memory[pc+i] = (line_number >> (8*(3-i))) & 0xFF;`
of `load_program`; the index `pc+i` is computed in `unsigned int`. -/
def store_line (s : Machine) (line_number : Int) : Option Machine :=
  (((write_byte s (u32 (s.pc + 0 : Nat)) (int_byte line_number (8 * (3 - 0)))).bind
    fun s1 => write_byte s1 (u32 (s.pc + 1 : Nat)) (int_byte line_number (8 * (3 - 1)))).bind
    fun s2 => write_byte s2 (u32 (s.pc + 2 : Nat)) (int_byte line_number (8 * (3 - 2)))).bind
    fun s3 => write_byte s3 (u32 (s.pc + 3 : Nat)) (int_byte line_number (8 * (3 - 3)))

/-- The `while (fgets(line, sizeof(line), file) != NULL)` loop of `load_program`
over the lines that `fgets` delivers; `strtoimax line` stands for the library
call `strtoimax(line, NULL, 0)`, whose result is converted to `int`. -/
def load_lines (strtoimax : String → Int) : List String → Machine → Option Machine
  | [], s => some s
  | line :: rest, s =>
    (store_line s (to_int (strtoimax line))).bind fun s1 =>
      load_lines strtoimax rest (set_pc s1 (u32 (s1.pc + 4 : Nat)))

/-- Loading of a program file: `file` is `none` when `fopen` fails and otherwise
the lines of the file.  Returns the C return value and the machine afterwards. -/
def load_program (strtoimax : String → Int) (file : Option (List String)) (s : Machine) :
    Option (Int × Machine) :=
  match file with
  | none => some (-1, s)
  | some lines =>
    (load_lines strtoimax lines s).bind fun s1 =>
      (store_line s1 (to_int 0xffffffff)).map fun s2 => (-EINVAL, s2)

/-! ## `run_program` -/

/-- One iteration of the loop of `run_program`: read the instruction at `pc`,
increment `pc` by 4, call `process_instruction`.  Returns the fetched word, the
flag and the machine afterwards. -/
def fetch_execute (s : Machine) : Option (Nat × Int × Machine) :=
  (read_word s s.pc (u32 (s.pc + 1 : Nat)) (u32 (s.pc + 2 : Nat)) (u32 (s.pc + 3 : Nat))).bind
    fun instr => (process_instruction instr (set_pc s (u32 (s.pc + 4 : Nat)))).map
      fun r => (instr, r.1, r.2)

/-- Outcome of the loop of `run_program` under a bound on its iterations. -/
inductive Run where
  /-- The loop ended: the final machine and the instruction words executed, in order. -/
  | returned (final : Machine) (trace : List Nat)
  /-- A memory access left `memory[]`. -/
  | undefined
  /-- The loop is still running after the allowed number of iterations. -/
  | unfinished

/-- The loop `while (flag != 0)` of `run_program`, at most `fuel` iterations;
`trace` collects the instruction words given to `process_instruction`. -/
def run_loop : Nat → Machine → List Nat → Run
  | 0, _, _ => Run.unfinished
  | fuel + 1, s, trace =>
    match fetch_execute s with
    | none => Run.undefined
    | some (instr, flag, s1) =>
      if flag ≠ 0 then run_loop fuel s1 (trace ++ [instr])
      else Run.returned s1 (trace ++ [instr])

/-- The function `run_program`: `pc = INITIAL_PC`, then the loop. -/
def run_program (fuel : Nat) (s : Machine) : Run :=
  run_loop fuel (set_pc s INITIAL_PC) []

/-- The first `k` iterations of the loop of `run_program` when each of them
leaves the loop running (`flag != 0`): the words fetched with the values that
`process_instruction` returned, and the machine before the next fetch.  It is
`none` when the loop has ended or left `memory[]` within these iterations. -/
def run_iterations : Nat → Machine → Option (List (Nat × Int) × Machine)
  | 0, s => some ([], s)
  | k + 1, s =>
    match fetch_execute s with
    | none => none
    | some (instr, flag, s1) =>
      if flag ≠ 0 then (run_iterations k s1).map fun r => ((instr, flag) :: r.1, r.2)
      else none

/-! ## The library parser -/

/-- The C library predicate `isspace` in the "C" locale. -/
def is_space (c : Char) : Bool :=
  c.toNat = 32 || (9 ≤ c.toNat && c.toNat ≤ 13)

/-- Value of a character as a digit, letters counting from ten. -/
def digit_value (c : Char) : Option Nat :=
  if 48 ≤ c.toNat ∧ c.toNat ≤ 57 then some (c.toNat - 48)
  else if 97 ≤ c.toNat ∧ c.toNat ≤ 122 then some (c.toNat - 97 + 10)
  else if 65 ≤ c.toNat ∧ c.toNat ≤ 90 then some (c.toNat - 65 + 10)
  else none

/-- Longest run of digits of the given base at the head of the text, folded
into a number; `none` when the text does not start with such a digit. -/
def read_digits (base : Nat) : List Char → Option Nat → Option Nat
  | [], acc => acc
  | c :: cs, acc =>
    match digit_value c with
    | some d => if d < base then read_digits base cs (some (acc.getD 0 * base + d)) else acc
    | none => acc

/-- The unsigned subject sequence of `strtoimax` with base 0: hexadecimal after
`0x`, octal after `0`, decimal otherwise; `none` when no conversion is possible. -/
def read_magnitude : List Char → Option Nat
  | [] => none
  | c :: cs =>
    if c.toNat = 48 then
      match cs with
      | [] => some 0
      | x :: ds =>
        if x.toNat = 120 ∨ x.toNat = 88 then
          match read_digits 16 ds none with
          | some v => some v
          | none => some 0
        else read_digits 8 (x :: ds) (some 0)
    else read_digits 10 (c :: cs) none

/-- Model of the C library call `strtoimax(line, NULL, 0)` (it is not code of
this program): white space is skipped, an optional sign is read, the number is
converted, the result is clamped to the range of `intmax_t`, and 0 is returned
when no conversion can be performed. -/
def strtoimax (line : String) : Int :=
  let text := line.toList.dropWhile is_space
  let negative := text.head? = some (Char.ofNat 45)
  let body := if text.head? = some (Char.ofNat 45) ∨ text.head? = some (Char.ofNat 43)
    then text.tail else text
  match read_magnitude body with
  | none => 0
  | some v =>
    if negative then max (-(v : Int)) (-9223372036854775808)
    else min (v : Int) 9223372036854775807

/-! ## Notions used by the statements -/

/-- The 32-bit word that the bytes of `memory` at `a`, `a+1`, `a+2`, `a+3` spell
in big-endian order (most significant byte first). -/
def be_word (memory : Nat → Nat) (a : Nat) : Nat :=
  u32 ((memory a <<< 24 ||| memory (a + 1) <<< 16 ||| memory (a + 2) <<< 8
    ||| memory (a + 3) : Nat) : Int)

/-- A register-only instruction word: opcode 0 with a funct other than `0x08`
(`jr`), or an i-format opcode other than `0x04`, `0x05`, `0x23`, `0x2b` (and not
the j-format opcodes `0x02`, `0x03`). -/
def register_only (w : Nat) : Prop :=
  (w >>> 26 = 0 ∧ w &&& 0x3F ≠ 0x08) ∨
  (w >>> 26 ≠ 0 ∧ w >>> 26 ≠ 0x02 ∧ w >>> 26 ≠ 0x03 ∧ w >>> 26 ≠ 0x04 ∧ w >>> 26 ≠ 0x05 ∧
    w >>> 26 ≠ 0x23 ∧ w >>> 26 ≠ 0x2b)

/-! ## Instruction encodings -/

/-- Machine code of an r-format instruction. -/
def encode_r (rs rt rd shamt funct : Nat) : Nat :=
  (rs <<< 21) ||| (rt <<< 16) ||| (rd <<< 11) ||| (shamt <<< 6) ||| funct

/-- Machine code of an i-format instruction. -/
def encode_i (opcode rs rt immediate : Nat) : Nat :=
  (opcode <<< 26) ||| (rs <<< 21) ||| (rt <<< 16) ||| immediate

/-- Machine code of a j-format instruction. -/
def encode_j (opcode address : Nat) : Nat :=
  (opcode <<< 26) ||| address

end PA2

/-! # Verified properties -/

namespace PA2

/-! ## Arithmetic helpers -/

theorem or_eq_add_of_low (a b k : Nat) (hb : b < 2 ^ k) (ha : a % 2 ^ k = 0) :
    a ||| b = a + b := by
  have h := Nat.mul_add_lt_is_or hb (a / 2 ^ k)
  have e : 2 ^ k * (a / 2 ^ k) = a := by
    have := Nat.div_add_mod a (2 ^ k)
    omega
  rw [e] at h
  exact h.symm

theorem land_3F (x : Nat) : x &&& 0x3F = x % 64 := Nat.and_pow_two_sub_one_eq_mod x 6

theorem land_1F (x : Nat) : x &&& 0x1F = x % 32 := Nat.and_pow_two_sub_one_eq_mod x 5

theorem land_FF (x : Nat) : x &&& 0xFF = x % 256 := Nat.and_pow_two_sub_one_eq_mod x 8

theorem land_FFFF (x : Nat) : x &&& 0x0000FFFF = x % 65536 :=
  Nat.and_pow_two_sub_one_eq_mod x 16

theorem land_3FFFFFF (x : Nat) : x &&& 0x03FFFFFF = x % 67108864 :=
  Nat.and_pow_two_sub_one_eq_mod x 26

theorem u32_nat (n : Nat) : u32 (n : Int) = n % 4294967296 := by
  unfold u32
  omega

theorem u32_lt (x : Int) : u32 x < 4294967296 := by
  unfold u32
  omega

theorem encode_r_eq (rs rt rd shamt funct : Nat) (hrt : rt < 32) (hrd : rd < 32)
    (hsh : shamt < 32) (hf : funct < 64) :
    encode_r rs rt rd shamt funct
      = rs * 2097152 + rt * 65536 + rd * 2048 + shamt * 64 + funct := by
  unfold encode_r
  rw [or_eq_add_of_low (rs <<< 21) (rt <<< 16) 21 (by omega) (by omega),
    or_eq_add_of_low _ (rd <<< 11) 16 (by omega) (by omega),
    or_eq_add_of_low _ (shamt <<< 6) 11 (by omega) (by omega),
    or_eq_add_of_low _ funct 6 (by omega) (by omega)]
  omega

theorem encode_i_eq (opcode rs rt immediate : Nat) (hrs : rs < 32) (hrt : rt < 32)
    (hi : immediate < 65536) :
    encode_i opcode rs rt immediate
      = opcode * 67108864 + rs * 2097152 + rt * 65536 + immediate := by
  unfold encode_i
  rw [or_eq_add_of_low (opcode <<< 26) (rs <<< 21) 26 (by omega) (by omega),
    or_eq_add_of_low _ (rt <<< 16) 21 (by omega) (by omega),
    or_eq_add_of_low _ immediate 16 (by omega) (by omega)]
  omega

theorem encode_j_eq (opcode address : Nat) (ha : address < 67108864) :
    encode_j opcode address = opcode * 67108864 + address := by
  unfold encode_j
  rw [or_eq_add_of_low (opcode <<< 26) address 26 (by omega) (by omega)]
  omega

/-! ## Memory accesses -/

theorem read_byte_eq (s : Machine) (a : Int) (h0 : 0 ≤ a) (h1 : a < 1048576) :
    read_byte s a = some (s.memory a.toNat) := by
  unfold read_byte MEMORY_SIZE
  rw [if_neg]
  push_cast
  omega

theorem read_byte_none (s : Machine) (a : Int) (h : a < 0 ∨ 1048576 ≤ a) :
    read_byte s a = none := by
  unfold read_byte MEMORY_SIZE
  rw [if_pos]
  push_cast
  omega

theorem write_byte_eq (s : Machine) (a : Int) (b : Nat) (h0 : 0 ≤ a) (h1 : a < 1048576) :
    write_byte s a b
      = some { s with memory := fun j => if j = a.toNat then b else s.memory j } := by
  unfold write_byte MEMORY_SIZE
  rw [if_neg]
  push_cast
  omega

theorem write_byte_none (s : Machine) (a : Int) (b : Nat) (h : a < 0 ∨ 1048576 ≤ a) :
    write_byte s a b = none := by
  unfold write_byte MEMORY_SIZE
  rw [if_pos]
  push_cast
  omega

theorem read_word_eq (s : Machine) (a : Int) (h0 : 0 ≤ a) (h3 : a + 3 < 1048576) :
    read_word s a (a + 1) (a + 2) (a + 3)
      = some (u32 ((s.memory a.toNat <<< 24 ||| s.memory (a + 1).toNat <<< 16
          ||| s.memory (a + 2).toNat <<< 8 ||| s.memory (a + 3).toNat : Nat) : Int)) := by
  unfold read_word
  rw [read_byte_eq s a h0 (by omega), read_byte_eq s (a + 1) (by omega) (by omega),
    read_byte_eq s (a + 2) (by omega) (by omega), read_byte_eq s (a + 3) (by omega) h3]
  rfl

theorem read_word_none (s : Machine) (a : Int) (h : a < 0 ∨ 1048576 ≤ a + 3) :
    read_word s a (a + 1) (a + 2) (a + 3) = none := by
  unfold read_word
  by_cases h0 : a < 0 ∨ 1048576 ≤ a
  · rw [read_byte_none s a h0]
    rfl
  · rw [read_byte_eq s a (by omega) (by omega)]
    by_cases h1 : 1048576 ≤ a + 1
    · rw [read_byte_none s (a + 1) (Or.inr h1)]
      rfl
    · rw [read_byte_eq s (a + 1) (by omega) (by omega)]
      by_cases h2 : 1048576 ≤ a + 2
      · rw [read_byte_none s (a + 2) (Or.inr h2)]
        rfl
      · rw [read_byte_eq s (a + 2) (by omega) (by omega),
          read_byte_none s (a + 3) (Or.inr (by omega))]
        rfl

/-- The four stores of `sw` (and of one line of `load_program`) at consecutive
addresses inside `memory[]`. -/
theorem write_four_eq (s : Machine) (a : Int) (b0 b1 b2 b3 : Nat) (h0 : 0 ≤ a)
    (h3 : a + 3 < 1048576) :
    (((write_byte s a b0).bind fun s1 => write_byte s1 (a + 1) b1).bind
        fun s2 => write_byte s2 (a + 2) b2).bind (fun s3 => write_byte s3 (a + 3) b3)
      = some { s with memory := fun j =>
          if j = (a + 3).toNat then b3 else if j = (a + 2).toNat then b2
          else if j = (a + 1).toNat then b1 else if j = a.toNat then b0 else s.memory j } := by
  rw [write_byte_eq s a b0 h0 (by omega)]
  simp only [Option.some_bind]
  rw [write_byte_eq _ (a + 1) b1 (by omega) (by omega)]
  simp only [Option.some_bind]
  rw [write_byte_eq _ (a + 2) b2 (by omega) (by omega)]
  simp only [Option.some_bind]
  rw [write_byte_eq _ (a + 3) b3 (by omega) (by omega)]

theorem write_four_none (s : Machine) (a : Int) (b0 b1 b2 b3 : Nat)
    (h : a < 0 ∨ 1048576 ≤ a + 3) :
    (((write_byte s a b0).bind fun s1 => write_byte s1 (a + 1) b1).bind
        fun s2 => write_byte s2 (a + 2) b2).bind (fun s3 => write_byte s3 (a + 3) b3)
      = none := by
  by_cases h0 : a < 0 ∨ 1048576 ≤ a
  · rw [write_byte_none s a b0 h0]
    rfl
  · rw [write_byte_eq s a b0 (by omega) (by omega)]
    simp only [Option.some_bind]
    by_cases h1 : 1048576 ≤ a + 1
    · rw [write_byte_none _ (a + 1) b1 (Or.inr h1)]
      rfl
    · rw [write_byte_eq _ (a + 1) b1 (by omega) (by omega)]
      simp only [Option.some_bind]
      by_cases h2 : 1048576 ≤ a + 2
      · rw [write_byte_none _ (a + 2) b2 (Or.inr h2)]
        rfl
      · rw [write_byte_eq _ (a + 2) b2 (by omega) (by omega)]
        simp only [Option.some_bind]
        rw [write_byte_none _ (a + 3) b3 (Or.inr (by omega))]

/-! ## Dispatch of `process_instruction` -/

theorem process_instruction_halt (s : Machine) :
    process_instruction 0xFFFFFFFF s = some (0, s) := rfl

theorem process_instruction_r (instr : Nat) (s : Machine) (hh : instr ≠ 0xFFFFFFFF)
    (hop : instr >>> 26 = 0) :
    process_instruction instr s
      = r_format (instr &&& 0x3F) ((instr >>> 21) &&& 0x1F) ((instr >>> 16) &&& 0x1F)
          ((instr >>> 11) &&& 0x1F) ((instr >>> 6) &&& 0x1F) s := by
  unfold process_instruction
  simp only []
  rw [if_neg hh, if_pos hop]

theorem process_instruction_j (instr : Nat) (s : Machine) (hh : instr ≠ 0xFFFFFFFF)
    (hop : instr >>> 26 = 0x02 ∨ instr >>> 26 = 0x03) :
    process_instruction instr s = j_format (instr >>> 26) (instr &&& 0x03FFFFFF) s := by
  have h0 : ¬ instr >>> 26 = 0 := by omega
  unfold process_instruction
  simp only []
  rw [if_neg hh, if_neg h0, if_pos hop]

theorem process_instruction_i (instr : Nat) (s : Machine) (hh : instr ≠ 0xFFFFFFFF)
    (h0 : instr >>> 26 ≠ 0) (hj : ¬ (instr >>> 26 = 0x02 ∨ instr >>> 26 = 0x03)) :
    process_instruction instr s
      = i_format (instr >>> 26) ((instr >>> 21) &&& 0x1F) ((instr >>> 16) &&& 0x1F)
          (instr &&& 0x0000FFFF) s := by
  unfold process_instruction
  simp only []
  rw [if_neg hh, if_neg h0, if_neg hj]

theorem process_instruction_encode_r (rs rt rd shamt funct : Nat) (s : Machine)
    (hrs : rs < 32) (hrt : rt < 32) (hrd : rd < 32) (hsh : shamt < 32) (hf : funct < 64) :
    process_instruction (encode_r rs rt rd shamt funct) s
      = r_format funct rs rt rd shamt s := by
  have e := encode_r_eq rs rt rd shamt funct hrt hrd hsh hf
  rw [process_instruction_r _ s (by omega) (by omega), land_3F, land_1F, land_1F, land_1F,
    land_1F]
  have e1 : encode_r rs rt rd shamt funct % 64 = funct := by omega
  have e2 : encode_r rs rt rd shamt funct >>> 21 % 32 = rs := by omega
  have e3 : encode_r rs rt rd shamt funct >>> 16 % 32 = rt := by omega
  have e4 : encode_r rs rt rd shamt funct >>> 11 % 32 = rd := by omega
  have e5 : encode_r rs rt rd shamt funct >>> 6 % 32 = shamt := by omega
  rw [e1, e2, e3, e4, e5]

theorem process_instruction_encode_i (opcode rs rt immediate : Nat) (s : Machine)
    (h0 : opcode ≠ 0) (h2 : opcode ≠ 0x02) (h3 : opcode ≠ 0x03)
    (h63 : opcode ≠ 0x3F) (hrs : rs < 32) (hrt : rt < 32) (hi : immediate < 65536) :
    process_instruction (encode_i opcode rs rt immediate) s
      = i_format opcode rs rt immediate s := by
  have e := encode_i_eq opcode rs rt immediate hrs hrt hi
  have e0 : encode_i opcode rs rt immediate >>> 26 = opcode := by omega
  rw [process_instruction_i _ s (by omega) (by omega) (by omega), land_FFFF, land_1F,
    land_1F]
  have e1 : encode_i opcode rs rt immediate % 65536 = immediate := by omega
  have e2 : encode_i opcode rs rt immediate >>> 21 % 32 = rs := by omega
  have e3 : encode_i opcode rs rt immediate >>> 16 % 32 = rt := by omega
  rw [e0, e1, e2, e3]

theorem process_instruction_encode_j (opcode address : Nat) (s : Machine)
    (hop : opcode = 0x02 ∨ opcode = 0x03) (ha : address < 67108864) :
    process_instruction (encode_j opcode address) s = j_format opcode address s := by
  have e := encode_j_eq opcode address ha
  have e0 : encode_j opcode address >>> 26 = opcode := by omega
  rw [process_instruction_j _ s (by omega) (by omega), land_3FFFFFF]
  have e1 : encode_j opcode address % 67108864 = address := by omega
  rw [e0, e1]

theorem r_format_sra (rs rt rd shamt : Nat) (s : Machine) :
    r_format 0x03 rs rt rd shamt s
      = if s.registers rt < u32 (to_int ((1 <<< 31 : Nat) : Int)) then
      some (1, set_reg s rd (s.registers rt >>> shamt))
    else
      some (1, set_reg s rd (sra_loop shamt (s.registers rt >>> shamt))) := rfl

theorem r_format_other (funct rs rt rd shamt : Nat) (s : Machine)
    (h : funct ≠ 0x20 ∧ funct ≠ 0x22 ∧ funct ≠ 0x24 ∧ funct ≠ 0x25 ∧ funct ≠ 0x27 ∧
      funct ≠ 0x00 ∧ funct ≠ 0x02 ∧ funct ≠ 0x03 ∧ funct ≠ 0x2a ∧ funct ≠ 0x08) :
    r_format funct rs rt rd shamt s = some (1, s) := by
  obtain ⟨h1, h2, h3, h4, h5, h6, h7, h8, h9, h10⟩ := h
  unfold r_format
  rw [if_neg h1, if_neg h2, if_neg h3, if_neg h4, if_neg h5, if_neg h6, if_neg h7,
    if_neg h8, if_neg h9, if_neg h10]

/-- The r-format branch always completes with return value 1. -/
theorem r_format_flag (funct rs rt rd shamt : Nat) (s : Machine) :
    ∃ s1, r_format funct rs rt rd shamt s = some (1, s1) := by
  by_cases h1 : funct = 0x20
  · subst h1; exact ⟨_, rfl⟩
  by_cases h2 : funct = 0x22
  · subst h2; exact ⟨_, rfl⟩
  by_cases h3 : funct = 0x24
  · subst h3; exact ⟨_, rfl⟩
  by_cases h4 : funct = 0x25
  · subst h4; exact ⟨_, rfl⟩
  by_cases h5 : funct = 0x27
  · subst h5; exact ⟨_, rfl⟩
  by_cases h6 : funct = 0x00
  · subst h6; exact ⟨_, rfl⟩
  by_cases h7 : funct = 0x02
  · subst h7; exact ⟨_, rfl⟩
  by_cases h8 : funct = 0x03
  · subst h8
    rw [r_format_sra]
    by_cases hc : s.registers rt < u32 (to_int ((1 <<< 31 : Nat) : Int))
    · exact ⟨_, if_pos hc⟩
    · exact ⟨_, if_neg hc⟩
  by_cases h9 : funct = 0x2a
  · subst h9; exact ⟨_, rfl⟩
  by_cases h10 : funct = 0x08
  · subst h10; exact ⟨_, rfl⟩
  exact ⟨_, r_format_other funct rs rt rd shamt s ⟨h1, h2, h3, h4, h5, h6, h7, h8, h9, h10⟩⟩

/-- The j-format branch always completes with return value 1. -/
theorem j_format_flag (opcode address : Nat) (s : Machine) :
    ∃ s1, j_format opcode address s = some (1, s1) := by
  by_cases h2 : opcode = 0x02
  · subst h2; exact ⟨_, rfl⟩
  by_cases h3 : opcode = 0x03
  · subst h3; exact ⟨_, rfl⟩
  refine ⟨s, ?_⟩
  unfold j_format
  simp only []
  rw [if_neg h2, if_neg h3]

theorem i_format_lw (rs rt immediate : Nat) (s : Machine) :
    i_format 0x23 rs rt immediate s
      = (read_word s (to_int (s.registers rs + sign_extend immediate))
          (to_int (s.registers rs + sign_extend immediate) + 1)
          (to_int (s.registers rs + sign_extend immediate) + 2)
          (to_int (s.registers rs + sign_extend immediate) + 3)).map
          fun w => (1, set_reg s rt w) := rfl

theorem i_format_sw (rs rt immediate : Nat) (s : Machine) :
    i_format 0x2b rs rt immediate s
      = ((((write_byte s (to_int (s.registers rs + sign_extend immediate))
              ((s.registers rt >>> (24 - 8 * 0)) &&& 0xFF)).bind
          fun s1 => write_byte s1 (to_int (s.registers rs + sign_extend immediate) + 1)
              ((s.registers rt >>> (24 - 8 * 1)) &&& 0xFF)).bind
          fun s2 => write_byte s2 (to_int (s.registers rs + sign_extend immediate) + 2)
              ((s.registers rt >>> (24 - 8 * 2)) &&& 0xFF)).bind
          fun s3 => write_byte s3 (to_int (s.registers rs + sign_extend immediate) + 3)
              ((s.registers rt >>> (24 - 8 * 3)) &&& 0xFF)).map
          fun s4 => (1, s4) := rfl

theorem i_format_beq (rs rt immediate : Nat) (s : Machine) :
    i_format 0x04 rs rt immediate s
      = if s.registers rs = s.registers rt then
          some (1, set_pc s (u32 (s.pc + 4 * sign_extend immediate)))
        else some (1, s) := rfl

theorem i_format_bne (rs rt immediate : Nat) (s : Machine) :
    i_format 0x05 rs rt immediate s
      = if s.registers rs ≠ s.registers rt then
          some (1, set_pc s (u32 (s.pc + 4 * sign_extend immediate)))
        else some (1, s) := rfl

theorem i_format_other (opcode rs rt immediate : Nat) (s : Machine)
    (h : opcode ≠ 0x08 ∧ opcode ≠ 0x0c ∧ opcode ≠ 0x0d ∧ opcode ≠ 0x23 ∧ opcode ≠ 0x2b ∧
      opcode ≠ 0x0a ∧ opcode ≠ 0x04 ∧ opcode ≠ 0x05) :
    i_format opcode rs rt immediate s = some (1, s) := by
  obtain ⟨h1, h2, h3, h4, h5, h6, h7, h8⟩ := h
  unfold i_format
  rw [if_neg h1, if_neg h2, if_neg h3, if_neg h4, if_neg h5, if_neg h6, if_neg h7,
    if_neg h8]

/-- Outside `lw` and `sw` the i-format branch always completes with return
value 1. -/
theorem i_format_flag (opcode rs rt immediate : Nat) (s : Machine)
    (hlw : opcode ≠ 0x23) (hsw : opcode ≠ 0x2b) :
    ∃ s1, i_format opcode rs rt immediate s = some (1, s1) := by
  by_cases h1 : opcode = 0x08
  · subst h1; exact ⟨_, rfl⟩
  by_cases h2 : opcode = 0x0c
  · subst h2; exact ⟨_, rfl⟩
  by_cases h3 : opcode = 0x0d
  · subst h3; exact ⟨_, rfl⟩
  by_cases h6 : opcode = 0x0a
  · subst h6; exact ⟨_, rfl⟩
  by_cases h7 : opcode = 0x04
  · subst h7
    rw [i_format_beq]
    by_cases hc : s.registers rs = s.registers rt
    · exact ⟨_, if_pos hc⟩
    · exact ⟨_, if_neg hc⟩
  by_cases h8 : opcode = 0x05
  · subst h8
    rw [i_format_bne]
    by_cases hc : s.registers rs ≠ s.registers rt
    · exact ⟨_, if_pos hc⟩
    · exact ⟨_, if_neg hc⟩
  exact ⟨_, i_format_other opcode rs rt immediate s ⟨h1, h2, h3, hlw, hsw, h6, h7, h8⟩⟩

/-- When it completes, `lw` returns 1. -/
theorem i_format_lw_flag (rs rt immediate : Nat) (s : Machine) (r : Int) (s1 : Machine)
    (h : i_format 0x23 rs rt immediate s = some (r, s1)) : r = 1 := by
  rw [i_format_lw] at h
  simp only [Option.map_eq_some', Prod.mk.injEq] at h
  obtain ⟨_, _, h1, _⟩ := h
  exact h1.symm

/-- When it completes, `sw` returns 1. -/
theorem i_format_sw_flag (rs rt immediate : Nat) (s : Machine) (r : Int) (s1 : Machine)
    (h : i_format 0x2b rs rt immediate s = some (r, s1)) : r = 1 := by
  rw [i_format_sw] at h
  simp only [Option.map_eq_some', Prod.mk.injEq] at h
  obtain ⟨_, _, h1, _⟩ := h
  exact h1.symm

/-! ## Halt and the return value -/

/-- C3: in every machine state `process_instruction(0xFFFFFFFF)` completes with
return value 0, and the machine afterwards is the machine before: every
register, every memory byte and `pc` are unchanged. -/
theorem C3_halt_returns_zero_no_change (s : Machine) :
    process_instruction 0xFFFFFFFF s = some (0, s) ∧
    ∃ s1, process_instruction 0xFFFFFFFF s = some (0, s1) ∧
      (∀ i, s1.registers i = s.registers i) ∧
      (∀ a, s1.memory a = s.memory a) ∧ s1.pc = s.pc :=
  ⟨rfl, s, rfl, fun _ => rfl, fun _ => rfl, rfl⟩

/-- The return value of every path of `process_instruction` that completes. -/
theorem process_instruction_flag (instr : Nat) (s : Machine) (r : Int) (s1 : Machine)
    (h : process_instruction instr s = some (r, s1)) :
    r = if instr = 0xFFFFFFFF then 0 else 1 := by
  by_cases hh : instr = 0xFFFFFFFF
  · subst hh
    rw [process_instruction_halt] at h
    simp only [Option.some.injEq, Prod.mk.injEq] at h
    rw [if_pos rfl]
    exact h.1.symm
  rw [if_neg hh]
  by_cases h0 : instr >>> 26 = 0
  · rw [process_instruction_r instr s hh h0] at h
    obtain ⟨s2, e⟩ := r_format_flag (instr &&& 0x3F) ((instr >>> 21) &&& 0x1F)
      ((instr >>> 16) &&& 0x1F) ((instr >>> 11) &&& 0x1F) ((instr >>> 6) &&& 0x1F) s
    rw [e] at h
    simp only [Option.some.injEq, Prod.mk.injEq] at h
    exact h.1.symm
  by_cases hj : instr >>> 26 = 0x02 ∨ instr >>> 26 = 0x03
  · rw [process_instruction_j instr s hh hj] at h
    obtain ⟨s2, e⟩ := j_format_flag (instr >>> 26) (instr &&& 0x03FFFFFF) s
    rw [e] at h
    simp only [Option.some.injEq, Prod.mk.injEq] at h
    exact h.1.symm
  rw [process_instruction_i instr s hh h0 hj] at h
  by_cases hlw : instr >>> 26 = 0x23
  · rw [hlw] at h
    exact i_format_lw_flag _ _ _ s r s1 h
  by_cases hsw : instr >>> 26 = 0x2b
  · rw [hsw] at h
    exact i_format_sw_flag _ _ _ s r s1 h
  obtain ⟨s2, e⟩ := i_format_flag (instr >>> 26) ((instr >>> 21) &&& 0x1F)
    ((instr >>> 16) &&& 0x1F) (instr &&& 0x0000FFFF) s hlw hsw
  rw [e] at h
  simp only [Option.some.injEq, Prod.mk.injEq] at h
  exact h.1.symm

/-- The call `process_instruction(instr)` completes exactly when `instr` is not a
`lw` or `sw` whose four bytes leave `memory[]`. -/
theorem process_instruction_completes_iff (instr : Nat) (s : Machine) :
    (∃ r s1, process_instruction instr s = some (r, s1)) ↔
      (instr >>> 26 = 0x23 ∨ instr >>> 26 = 0x2b →
        0 ≤ target_address instr s ∧ target_address instr s + 3 < 1048576) := by
  by_cases hh : instr = 0xFFFFFFFF
  · subst hh
    constructor
    · intro _ h
      have : (0xFFFFFFFF : Nat) >>> 26 = 63 := by decide
      omega
    · intro _
      exact ⟨0, s, rfl⟩
  by_cases h0 : instr >>> 26 = 0
  · constructor
    · intro _ h
      omega
    · intro _
      obtain ⟨s2, e⟩ := r_format_flag (instr &&& 0x3F) ((instr >>> 21) &&& 0x1F)
        ((instr >>> 16) &&& 0x1F) ((instr >>> 11) &&& 0x1F) ((instr >>> 6) &&& 0x1F) s
      exact ⟨1, s2, by rw [process_instruction_r instr s hh h0, e]⟩
  by_cases hj : instr >>> 26 = 0x02 ∨ instr >>> 26 = 0x03
  · constructor
    · intro _ h
      omega
    · intro _
      obtain ⟨s2, e⟩ := j_format_flag (instr >>> 26) (instr &&& 0x03FFFFFF) s
      exact ⟨1, s2, by rw [process_instruction_j instr s hh hj, e]⟩
  rw [process_instruction_i instr s hh h0 hj]
  by_cases hlw : instr >>> 26 = 0x23
  · rw [hlw, i_format_lw]
    by_cases hb : 0 ≤ target_address instr s ∧ target_address instr s + 3 < 1048576
    · unfold target_address at hb
      rw [read_word_eq s _ hb.1 hb.2]
      constructor
      · intro _ _
        exact hb
      · intro _
        exact ⟨_, _, rfl⟩
    · have hb2 := hb
      unfold target_address at hb2
      rw [read_word_none s _ (by omega)]
      constructor
      · rintro ⟨r, s1, h⟩
        simp at h
      · intro h
        exact absurd (h (Or.inl rfl)) hb
  by_cases hsw : instr >>> 26 = 0x2b
  · rw [hsw, i_format_sw]
    by_cases hb : 0 ≤ target_address instr s ∧ target_address instr s + 3 < 1048576
    · unfold target_address at hb
      rw [write_four_eq s _ _ _ _ _ hb.1 hb.2]
      constructor
      · intro _ _
        exact hb
      · intro _
        exact ⟨_, _, rfl⟩
    · have hb2 := hb
      unfold target_address at hb2
      rw [write_four_none s _ _ _ _ _ (by omega)]
      constructor
      · rintro ⟨r, s1, h⟩
        simp at h
      · intro h
        exact absurd (h (Or.inr rfl)) hb
  constructor
  · intro _ h
    omega
  · intro _
    obtain ⟨s2, e⟩ := i_format_flag (instr >>> 26) ((instr >>> 21) &&& 0x1F)
      ((instr >>> 16) &&& 0x1F) (instr &&& 0x0000FFFF) s hlw hsw
    exact ⟨1, s2, e⟩

/-- C4: for every instruction word and every machine state, `process_instruction`
completes exactly when the word is not a `lw`/`sw` with an access outside
`memory[]`, and whenever it completes its return value is 0 if and only if the
word is `0xFFFFFFFF` (and 1 otherwise); `slti` (opcode `0x0a`) always completes
and returns 1. -/
theorem C4_return_zero_iff_halt (instr : Nat) (s : Machine) :
    ((∃ r s1, process_instruction instr s = some (r, s1)) ↔
      (instr >>> 26 = 0x23 ∨ instr >>> 26 = 0x2b →
        0 ≤ target_address instr s ∧ target_address instr s + 3 < 1048576)) ∧
    (∀ r s1, process_instruction instr s = some (r, s1) →
      (r = 0 ↔ instr = 0xFFFFFFFF) ∧ (instr ≠ 0xFFFFFFFF → r = 1)) ∧
    (instr >>> 26 = 0x0a → ∃ s1, process_instruction instr s = some (1, s1)) := by
  refine ⟨process_instruction_completes_iff instr s, ?_, ?_⟩
  · intro r s1 h
    have hr := process_instruction_flag instr s r s1 h
    by_cases hh : instr = 0xFFFFFFFF
    · rw [if_pos hh] at hr
      exact ⟨⟨fun _ => hh, fun _ => hr⟩, fun hn => absurd hh hn⟩
    · rw [if_neg hh] at hr
      refine ⟨⟨fun hz => ?_, fun hz => absurd hz hh⟩, fun _ => hr⟩
      omega
  · intro hop
    have hh : instr ≠ 0xFFFFFFFF := by
      intro e
      subst e
      have : (0xFFFFFFFF : Nat) >>> 26 = 63 := by decide
      omega
    obtain ⟨r, s1, h⟩ := (process_instruction_completes_iff instr s).2 (fun hc => by omega)
    have hr := process_instruction_flag instr s r s1 h
    rw [if_neg hh] at hr
    subst hr
    exact ⟨s1, h⟩

/-- Witness of C4 at `slti $t0, $t1, 5` on the initial machine. -/
theorem C4_return_zero_iff_halt_witness :
    (0x29280005 : Nat) >>> 26 = 0x0a ∧
      ∃ s1, process_instruction 0x29280005 initial_machine = some (1, s1) :=
  ⟨by decide, (C4_return_zero_iff_halt 0x29280005 initial_machine).2.2 (by decide)⟩

/-! ## Register writes -/

theorem set_reg_same (s : Machine) (i v : Nat) : (set_reg s i v).registers i = v := by
  simp [set_reg]

theorem set_reg_other (s : Machine) (i v j : Nat) (h : j ≠ i) :
    (set_reg s i v).registers j = s.registers j := by
  simp [set_reg, h]

theorem sign_extend_eq (immediate : Nat) (h : immediate < 65536) :
    sign_extend immediate
      = if immediate < 0x8000 then (immediate : Int) else (immediate : Int) - 0x10000 := by
  unfold sign_extend to_int
  split_ifs <;> omega

/-! ## Arithmetic instructions -/

/-- C5: for all register numbers `rs`, `rt`, `rd` below 32 (equal or not), `add`
completes with return value 1 and sets `registers[rd]` to
`(registers[rs] + registers[rt]) mod 2^32`, `sub` sets it to
`(registers[rs] - registers[rt]) mod 2^32`, both from the operand values before
the instruction; every other register, all memory and `pc` are unchanged.  With
`a0 = 3, a1 = 4` the word `add $v0, $a0, $a1` gives `v0 = 7`; with
`a0 = 0xFFFFFFFF, a1 = 1` it gives `v0 = 0`. -/
theorem C5_add_sub_wraparound (s : Machine) (rs rt rd shamt : Nat) (hrs : rs < 32)
    (hrt : rt < 32) (hrd : rd < 32) (hsh : shamt < 32) :
    (∃ s1, process_instruction (encode_r rs rt rd shamt 0x20) s = some (1, s1) ∧
      s1.registers rd = (s.registers rs + s.registers rt) % 4294967296 ∧
      (∀ i, i ≠ rd → s1.registers i = s.registers i) ∧
      s1.memory = s.memory ∧ s1.pc = s.pc) ∧
    (∃ s1, process_instruction (encode_r rs rt rd shamt 0x22) s = some (1, s1) ∧
      (s1.registers rd : Int) = ((s.registers rs : Int) - s.registers rt) % 4294967296 ∧
      (∀ i, i ≠ rd → s1.registers i = s.registers i) ∧
      s1.memory = s.memory ∧ s1.pc = s.pc) ∧
    (s.registers 4 = 3 → s.registers 5 = 4 →
      ∃ s1, process_instruction 0x00851020 s = some (1, s1) ∧ s1.registers 2 = 7) ∧
    (s.registers 4 = 0xFFFFFFFF → s.registers 5 = 1 →
      ∃ s1, process_instruction 0x00851020 s = some (1, s1) ∧ s1.registers 2 = 0) := by
  have hadd : ∀ a b d h : Nat, a < 32 → b < 32 → d < 32 → h < 32 →
      process_instruction (encode_r a b d h 0x20) s
        = some (1, set_reg s d (u32 (s.registers a + s.registers b : Nat))) := by
    intro a b d h ha hb hd hh
    rw [process_instruction_encode_r a b d h 0x20 s ha hb hd hh (by omega)]
    rfl
  have hsub : process_instruction (encode_r rs rt rd shamt 0x22) s
      = some (1, set_reg s rd (u32 ((s.registers rs : Int) - s.registers rt))) := by
    rw [process_instruction_encode_r rs rt rd shamt 0x22 s hrs hrt hrd hsh (by omega)]
    rfl
  have hword : (0x00851020 : Nat) = encode_r 4 5 2 0 0x20 := by decide
  refine ⟨⟨_, hadd rs rt rd shamt hrs hrt hrd hsh, ?_, ?_, rfl, rfl⟩,
    ⟨_, hsub, ?_, ?_, rfl, rfl⟩, ?_, ?_⟩
  · rw [set_reg_same, u32_nat]
  · intro i hi
    exact set_reg_other s rd _ i hi
  · rw [set_reg_same]
    unfold u32
    omega
  · intro i hi
    exact set_reg_other s rd _ i hi
  · intro h4 h5
    refine ⟨_, by rw [hword]; exact hadd 4 5 2 0 (by omega) (by omega) (by omega) (by omega), ?_⟩
    rw [set_reg_same, u32_nat, h4, h5]
  · intro h4 h5
    refine ⟨_, by rw [hword]; exact hadd 4 5 2 0 (by omega) (by omega) (by omega) (by omega), ?_⟩
    rw [set_reg_same, u32_nat, h4, h5]

/-- Witness of C5 on the initial machine with `rs = s3` (3), `rt = s7` (7),
`rd = v0`: `add` leaves 10 in `v0`. -/
theorem C5_add_sub_wraparound_witness :
    ∃ s1, process_instruction (encode_r 19 23 2 0 0x20) initial_machine = some (1, s1) ∧
      s1.registers 2 = (initial_machine.registers 19 + initial_machine.registers 23)
        % 4294967296 ∧
      (∀ i, i ≠ 2 → s1.registers i = initial_machine.registers i) ∧
      s1.memory = initial_machine.memory ∧ s1.pc = initial_machine.pc :=
  (C5_add_sub_wraparound initial_machine 19 23 2 0 (by decide) (by decide) (by decide)
    (by decide)).1

/-- C6: for all register numbers `rs`, `rt` below 32 and every 16-bit immediate,
`addi` completes with return value 1 and sets `registers[rt]` to
`(registers[rs] + sext(imm)) mod 2^32`, where `sext(imm)` is `imm` below `0x8000`
and `imm - 0x10000` from there on; the other registers, memory and `pc` are
unchanged.  From the initial machine the word `0x20080005` leaves 5 in `t0`. -/
theorem C6_addi_sign_extended (s : Machine) (rs rt imm : Nat) (hrs : rs < 32)
    (hrt : rt < 32) (himm : imm < 65536) :
    (∃ s1, process_instruction (encode_i 0x08 rs rt imm) s = some (1, s1) ∧
      (s1.registers rt : Int)
        = (s.registers rs + (if imm < 0x8000 then (imm : Int) else imm - 0x10000))
            % 4294967296 ∧
      (∀ i, i ≠ rt → s1.registers i = s.registers i) ∧
      s1.memory = s.memory ∧ s1.pc = s.pc) ∧
    (∃ s1, process_instruction 0x20080005 initial_machine = some (1, s1) ∧
      s1.registers 8 = 5) := by
  have haddi : ∀ (m : Machine) (a b c : Nat), a < 32 → b < 32 → c < 65536 →
      process_instruction (encode_i 0x08 a b c) m
        = some (1, set_reg m b (u32 (m.registers a + sign_extend c))) := by
    intro m a b c ha hb hc
    rw [process_instruction_encode_i 0x08 a b c m (by omega) (by omega) (by omega)
      (by omega) ha hb hc]
    rfl
  have hword : (0x20080005 : Nat) = encode_i 0x08 0 8 5 := by decide
  refine ⟨⟨_, haddi s rs rt imm hrs hrt himm, ?_, ?_, rfl, rfl⟩, ?_⟩
  · rw [set_reg_same, sign_extend_eq imm himm]
    unfold u32
    omega
  · intro i hi
    exact set_reg_other s rt _ i hi
  · have h := haddi initial_machine 0 8 5 (by omega) (by omega) (by omega)
    rw [← hword] at h
    refine ⟨_, h, ?_⟩
    rw [set_reg_same]
    decide

/-- Witness of C6 at `addi $t1, $s0, 0xFFFF` (immediate -1) on the initial
machine. -/
theorem C6_addi_sign_extended_witness :
    ∃ s1, process_instruction (encode_i 0x08 16 9 0xFFFF) initial_machine = some (1, s1) ∧
      (s1.registers 9 : Int)
        = (initial_machine.registers 16
            + (if 0xFFFF < 0x8000 then ((0xFFFF : Nat) : Int) else (0xFFFF : Nat) - 0x10000))
            % 4294967296 ∧
      (∀ i, i ≠ 9 → s1.registers i = initial_machine.registers i) ∧
      s1.memory = initial_machine.memory ∧ s1.pc = initial_machine.pc :=
  (C6_addi_sign_extended initial_machine 16 9 0xFFFF (by decide) (by decide) (by decide)).1

/-! ## Arithmetic shift right -/

theorem sra_loop_zero (acc : Nat) : sra_loop 0 acc = acc := rfl

theorem sra_loop_succ (k acc : Nat) :
    sra_loop (k + 1) acc
      = sra_loop k (u32 (acc + to_int ((1 <<< (32 - (k + 1)) : Nat) : Int))) := rfl

theorem two_pow_split (k : Nat) (hk : k ≤ 32) : 2 ^ (32 - k) * 2 ^ k = 4294967296 := by
  rw [← pow_add, Nat.sub_add_cancel hk]
  norm_num

/-- The accumulation loop of `sra` adds `2^32 - 2^(32 - shamt)`: it sets the top
`shamt` bits. -/
theorem sra_loop_eq (k acc : Nat) (hk : k ≤ 32) (ha : acc < 4294967296) :
    sra_loop k acc = (acc + (4294967296 - 2 ^ (32 - k))) % 4294967296 := by
  induction k generalizing acc with
  | zero =>
    rw [sra_loop_zero]
    norm_num
    omega
  | succ k ih =>
    have hp : 2 ^ (32 - k) = 2 * 2 ^ (32 - (k + 1)) := by
      rw [← pow_succ']
      congr 1
      omega
    have hle : 2 ^ (32 - (k + 1)) ≤ 2147483648 := by
      have : 2 ^ (32 - (k + 1)) ≤ 2 ^ 31 := Nat.pow_le_pow_right (by omega) (by omega)
      omega
    have hpos : 0 < 2 ^ (32 - (k + 1)) := Nat.pow_pos (by omega)
    rw [sra_loop_succ, ih _ (by omega) (u32_lt _), hp, Nat.shiftLeft_eq, one_mul]
    generalize 2 ^ (32 - (k + 1)) = p at hle hpos
    unfold u32 to_int
    split_ifs <;> omega

theorem sign_bit_eq : u32 (to_int ((1 <<< 31 : Nat) : Int)) = 2147483648 := by decide

/-- Value that `sra` leaves in `registers[rd]` for the operand `v` and the shift
amount `shamt`. -/
theorem sra_value (v shamt : Nat) (hv : v < 4294967296) (hsh : shamt < 32) :
    (v < 2147483648 →
      ((v >>> shamt : Nat) : Int) = ((v : Int) / 2 ^ shamt) % 4294967296) ∧
    (2147483648 ≤ v →
      sra_loop shamt (v >>> shamt) = (v >>> shamt) ||| (4294967296 - 2 ^ (32 - shamt)) ∧
      ((sra_loop shamt (v >>> shamt) : Nat) : Int)
        = (((v : Int) - 4294967296) / 2 ^ shamt) % 4294967296) := by
  have hsplit := two_pow_split shamt (by omega)
  have hQ : 0 < 2 ^ shamt := Nat.pow_pos (by omega)
  have hP : 0 < 2 ^ (32 - shamt) := Nat.pow_pos (by omega)
  have hq : v >>> shamt < 2 ^ (32 - shamt) := by
    rw [Nat.shiftRight_eq_div_pow, Nat.div_lt_iff_lt_mul hQ, hsplit]
    exact hv
  have hcast : ((v >>> shamt : Nat) : Int) = (v : Int) / 2 ^ shamt := by
    rw [Nat.shiftRight_eq_div_pow]
    push_cast
    rfl
  have hPle : 2 ^ (32 - shamt) ≤ 4294967296 := by
    rw [← hsplit]
    exact Nat.le_mul_of_pos_right _ hQ
  constructor
  · intro _
    rw [← hcast]
    have hlt : v >>> shamt < 4294967296 := by omega
    generalize v >>> shamt = q at hlt
    omega
  · intro _
    have hloop := sra_loop_eq shamt (v >>> shamt) (by omega) (by omega)
    have hsum : sra_loop shamt (v >>> shamt)
        = (v >>> shamt) + (4294967296 - 2 ^ (32 - shamt)) := by
      rw [hloop]
      apply Nat.mod_eq_of_lt
      omega
    constructor
    · rw [hsum, Nat.lor_comm, or_eq_add_of_low _ _ (32 - shamt) hq, Nat.add_comm]
      have e : 4294967296 - 2 ^ (32 - shamt) = 2 ^ (32 - shamt) * (2 ^ shamt - 1) := by
        rw [Nat.mul_sub, hsplit, Nat.mul_one]
      rw [e]
      exact Nat.mul_mod_right _ _
    · have hdiv : ((v : Int) - 4294967296) / 2 ^ shamt
          = (v : Int) / 2 ^ shamt - ((2 ^ (32 - shamt) : Nat) : Int) := by
        have hM : (4294967296 : Int)
            = ((2 ^ (32 - shamt) : Nat) : Int) * (2 : Int) ^ shamt := by
          have := congrArg (fun n : Nat => (n : Int)) hsplit
          simp only [Nat.cast_mul, Nat.cast_pow, Nat.cast_ofNat] at this
          simp only [Nat.cast_pow, Nat.cast_ofNat]
          exact this.symm
        have hne : (2 : Int) ^ shamt ≠ 0 := by positivity
        rw [hM, sub_eq_add_neg, ← neg_mul, Int.add_mul_ediv_right _ _ hne]
        ring
      rw [hdiv, ← hcast, hsum]
      generalize v >>> shamt = q at hq
      generalize 2 ^ (32 - shamt) = P at hq hPle hP
      omega

/-- C7: for every 32-bit value `v` of `registers[rt]` and every `shamt` below 32,
`sra` completes with return value 1 and sets `registers[rd]` to the arithmetic
right shift of `v`, that is `floor(signed(v) / 2^shamt) mod 2^32` (integer
division rounds down here, the divisor being positive): the logical shift
when `v < 2^31`, and the logical shift with the top `shamt` bits set otherwise.
`rd` may equal `rt` and `shamt` may be 0.  With `v = 0x80000000` and `shamt = 4`
the result is `0xF8000000`. -/
theorem C7_sra_sign_fill (s : Machine) (rs rt rd shamt : Nat) (hrs : rs < 32)
    (hrt : rt < 32) (hrd : rd < 32) (hsh : shamt < 32)
    (hv : s.registers rt < 4294967296) :
    ∃ s1, process_instruction (encode_r rs rt rd shamt 0x03) s = some (1, s1) ∧
      (s1.registers rd : Int)
        = ((if s.registers rt < 2147483648 then (s.registers rt : Int)
            else (s.registers rt : Int) - 4294967296) / 2 ^ shamt) % 4294967296 ∧
      (s.registers rt < 2147483648 → s1.registers rd = s.registers rt >>> shamt) ∧
      (2147483648 ≤ s.registers rt →
        s1.registers rd = (s.registers rt >>> shamt) ||| (4294967296 - 2 ^ (32 - shamt))) ∧
      (s.registers rt = 0x80000000 → shamt = 4 → s1.registers rd = 0xF8000000) := by
  have hval := sra_value (s.registers rt) shamt hv hsh
  have hrun : process_instruction (encode_r rs rt rd shamt 0x03) s
      = r_format 0x03 rs rt rd shamt s :=
    process_instruction_encode_r rs rt rd shamt 0x03 s hrs hrt hrd hsh (by omega)
  rw [hrun, r_format_sra, sign_bit_eq]
  by_cases hneg : s.registers rt < 2147483648
  · rw [if_pos hneg]
    refine ⟨_, rfl, ?_, ?_, ?_, ?_⟩
    · rw [set_reg_same, if_pos hneg]
      exact hval.1 hneg
    · intro _
      exact set_reg_same s rd _
    · intro h
      omega
    · intro h
      omega
  · rw [if_neg hneg]
    obtain ⟨hor, hfloor⟩ := hval.2 (by omega)
    refine ⟨_, rfl, ?_, ?_, ?_, ?_⟩
    · rw [set_reg_same, if_neg hneg]
      exact hfloor
    · intro h
      omega
    · intro _
      rw [set_reg_same]
      exact hor
    · intro h4 hs
      rw [set_reg_same, hor, h4, hs]
      decide

/-- Witness of C7 on the initial machine: `sra $v0, $s6, 4` with
`s6 = 0xffffffff`. -/
theorem C7_sra_sign_fill_witness :
    initial_machine.registers 22 < 4294967296 ∧
    ∃ s1, process_instruction (encode_r 0 22 2 4 0x03) initial_machine = some (1, s1) ∧
      (s1.registers 2 : Int)
        = ((if initial_machine.registers 22 < 2147483648
              then (initial_machine.registers 22 : Int)
            else (initial_machine.registers 22 : Int) - 4294967296) / 2 ^ 4) % 4294967296 ∧
      (initial_machine.registers 22 < 2147483648 →
        s1.registers 2 = initial_machine.registers 22 >>> 4) ∧
      (2147483648 ≤ initial_machine.registers 22 →
        s1.registers 2
          = (initial_machine.registers 22 >>> 4) ||| (4294967296 - 2 ^ (32 - 4))) ∧
      (initial_machine.registers 22 = 0x80000000 → 4 = 4 → s1.registers 2 = 0xF8000000) :=
  ⟨by decide, C7_sra_sign_fill initial_machine 0 22 2 4 (by decide) (by decide) (by decide)
    (by decide) (by decide)⟩

/-! ## Branches and jumps -/

/-- C8: with the already incremented `pc = p`, `beq` completes with return value 1
and sets `pc` to `(p + 4 * sext(imm)) mod 2^32` when `registers[rs]` equals
`registers[rt]` and leaves `pc = p` otherwise; `bne` does the same under the
negated condition; neither changes a register or a memory byte.  The word
`beq $zero,$zero,1` fetched at `pc0` ends with `pc = pc0 + 8`. -/
theorem C8_beq_bne_relative (s : Machine) (rs rt imm : Nat) (hrs : rs < 32)
    (hrt : rt < 32) (himm : imm < 65536) :
    (∃ s1, process_instruction (encode_i 0x04 rs rt imm) s = some (1, s1) ∧
      (s.registers rs = s.registers rt →
        (s1.pc : Int)
          = (s.pc + 4 * (if imm < 0x8000 then (imm : Int) else imm - 0x10000))
              % 4294967296) ∧
      (s.registers rs ≠ s.registers rt → s1.pc = s.pc) ∧
      s1.registers = s.registers ∧ s1.memory = s.memory) ∧
    (∃ s1, process_instruction (encode_i 0x05 rs rt imm) s = some (1, s1) ∧
      (s.registers rs ≠ s.registers rt →
        (s1.pc : Int)
          = (s.pc + 4 * (if imm < 0x8000 then (imm : Int) else imm - 0x10000))
              % 4294967296) ∧
      (s.registers rs = s.registers rt → s1.pc = s.pc) ∧
      s1.registers = s.registers ∧ s1.memory = s.memory) ∧
    (∀ pc0, s.pc = pc0 + 4 → pc0 + 8 < 4294967296 →
      ∃ s1, process_instruction 0x10000001 s = some (1, s1) ∧ s1.pc = pc0 + 8) := by
  have hbeq : ∀ a b c : Nat, a < 32 → b < 32 → c < 65536 →
      process_instruction (encode_i 0x04 a b c) s = i_format 0x04 a b c s := by
    intro a b c ha hb hc
    exact process_instruction_encode_i 0x04 a b c s (by omega) (by omega) (by omega)
      (by omega) ha hb hc
  have hbne : process_instruction (encode_i 0x05 rs rt imm) s = i_format 0x05 rs rt imm s :=
    process_instruction_encode_i 0x05 rs rt imm s (by omega) (by omega) (by omega)
      (by omega) hrs hrt himm
  have hpc : ∀ v : Nat, (set_pc s v).pc = v := fun _ => rfl
  refine ⟨?_, ?_, ?_⟩
  · rw [hbeq rs rt imm hrs hrt himm, i_format_beq]
    by_cases hc : s.registers rs = s.registers rt
    · rw [if_pos hc]
      refine ⟨_, rfl, ?_, fun hn => absurd hc hn, rfl, rfl⟩
      intro _
      rw [hpc, sign_extend_eq imm himm]
      unfold u32
      omega
    · rw [if_neg hc]
      exact ⟨_, rfl, fun h => absurd h hc, fun _ => rfl, rfl, rfl⟩
  · rw [hbne, i_format_bne]
    by_cases hc : s.registers rs ≠ s.registers rt
    · rw [if_pos hc]
      refine ⟨_, rfl, ?_, fun h => absurd h hc, rfl, rfl⟩
      intro _
      rw [hpc, sign_extend_eq imm himm]
      unfold u32
      omega
    · rw [if_neg hc]
      exact ⟨_, rfl, fun h => absurd h hc, fun _ => rfl, rfl, rfl⟩
  · intro pc0 hp hlt
    have hword : (0x10000001 : Nat) = encode_i 0x04 0 0 1 := by decide
    rw [hword, hbeq 0 0 1 (by omega) (by omega) (by omega), i_format_beq, if_pos rfl]
    refine ⟨_, rfl, ?_⟩
    rw [hpc, sign_extend_eq 1 (by omega), hp]
    unfold u32
    rw [if_pos (by omega)]
    omega

/-- Witness of C8 on the initial machine: `beq $a0, $a1, 0xFFFE` (offset -2)
and `bne $a0, $a1, 0xFFFE`. -/
theorem C8_beq_bne_relative_witness :
    (∃ s1, process_instruction (encode_i 0x04 4 5 0xFFFE) initial_machine = some (1, s1) ∧
      (initial_machine.registers 4 = initial_machine.registers 5 →
        (s1.pc : Int)
          = (initial_machine.pc
              + 4 * (if 0xFFFE < 0x8000 then ((0xFFFE : Nat) : Int)
                  else (0xFFFE : Nat) - 0x10000)) % 4294967296) ∧
      (initial_machine.registers 4 ≠ initial_machine.registers 5 →
        s1.pc = initial_machine.pc) ∧
      s1.registers = initial_machine.registers ∧ s1.memory = initial_machine.memory) :=
  (C8_beq_bne_relative initial_machine 4 5 0xFFFE (by decide) (by decide) (by decide)).1

theorem land_bit28 (p : Nat) : p &&& 0x10000000 = 0 ∨ p &&& 0x10000000 = 0x10000000 := by
  have h := Nat.and_two_pow p 28
  have e : (2 : Nat) ^ 28 = 0x10000000 := by norm_num
  rw [e] at h
  rw [h]
  cases p.testBit 28 <;> simp

/-- The jump target: the sum that the code computes is the bitwise OR. -/
theorem jump_target_eq (p a : Nat) (ha : a < 67108864) :
    (p &&& 0x10000000) + (a <<< 2) = (p &&& 0x10000000) ||| (a <<< 2) ∧
    u32 (to_int ((p &&& 0x10000000 : Nat) : Int) + ((a <<< 2 : Nat) : Int))
      = (p &&& 0x10000000) ||| (a <<< 2) := by
  have hsum : (p &&& 0x10000000) + (a <<< 2) = (p &&& 0x10000000) ||| (a <<< 2) := by
    rw [or_eq_add_of_low _ _ 28 (by omega)]
    rcases land_bit28 p with h | h <;> rw [h] <;> norm_num
  refine ⟨hsum, ?_⟩
  rw [← hsum]
  have hb := land_bit28 p
  generalize p &&& 0x10000000 = top at hb
  unfold u32 to_int
  split_ifs <;> omega

/-- C9: with `pc = p` and a 26-bit address field `a`, `j` completes with return
value 1, sets `pc` to `(p & 0x10000000) | (a << 2)` and changes no register and
no memory byte; `jal` sets `registers[31]` to `p` and `pc` to the same target,
leaving the other registers and memory unchanged.  The sum
`top + (a << 2)` of the code equals the bitwise OR for every `p` and `a`. -/
theorem C9_j_jal_target (s : Machine) (a : Nat) (ha : a < 67108864) :
    (∃ s1, process_instruction (encode_j 0x02 a) s = some (1, s1) ∧
      s1.pc = (s.pc &&& 0x10000000) ||| (a <<< 2) ∧
      s1.registers = s.registers ∧ s1.memory = s.memory) ∧
    (∃ s1, process_instruction (encode_j 0x03 a) s = some (1, s1) ∧
      s1.registers 31 = s.pc ∧
      s1.pc = (s.pc &&& 0x10000000) ||| (a <<< 2) ∧
      (∀ i, i ≠ 31 → s1.registers i = s.registers i) ∧ s1.memory = s.memory) ∧
    (s.pc &&& 0x10000000) + (a <<< 2) = (s.pc &&& 0x10000000) ||| (a <<< 2) := by
  obtain ⟨hsum, htarget⟩ := jump_target_eq s.pc a ha
  have hj : process_instruction (encode_j 0x02 a) s
      = some ((1 : Int), set_pc s (u32 (to_int ((s.pc &&& 0x10000000 : Nat) : Int)
          + ((a <<< 2 : Nat) : Int)))) := by
    rw [process_instruction_encode_j 0x02 a s (Or.inl rfl) ha]
    rfl
  have hjal : process_instruction (encode_j 0x03 a) s
      = some ((1 : Int), set_pc (set_reg s 31 s.pc)
          (u32 (to_int ((s.pc &&& 0x10000000 : Nat) : Int) + ((a <<< 2 : Nat) : Int)))) := by
    rw [process_instruction_encode_j 0x03 a s (Or.inr rfl) ha]
    rfl
  rw [htarget] at hj hjal
  refine ⟨⟨_, hj, rfl, rfl, rfl⟩, ⟨_, hjal, ?_, rfl, ?_, rfl⟩, hsum⟩
  · exact set_reg_same s 31 s.pc
  · intro i hi
    exact set_reg_other s 31 s.pc i hi

/-- Witness of C9 on the initial machine: `j 0x400` and `jal 0x400`. -/
theorem C9_j_jal_target_witness :
    (0x400 : Nat) < 67108864 ∧
    ∃ s1, process_instruction (encode_j 0x03 0x400) initial_machine = some (1, s1) ∧
      s1.registers 31 = initial_machine.pc ∧
      s1.pc = (initial_machine.pc &&& 0x10000000) ||| (0x400 <<< 2) ∧
      (∀ i, i ≠ 31 → s1.registers i = initial_machine.registers i) ∧
      s1.memory = initial_machine.memory :=
  ⟨by decide, (C9_j_jal_target initial_machine 0x400 (by decide)).2.1⟩

/-! ## Store and load -/

/-- The big-endian combination of four bytes is their positional sum. -/
theorem be_word_eq (b0 b1 b2 b3 : Nat) (h1 : b1 < 256) (h2 : b2 < 256) (h3 : b3 < 256) :
    b0 <<< 24 ||| b1 <<< 16 ||| b2 <<< 8 ||| b3
      = b0 * 16777216 + b1 * 65536 + b2 * 256 + b3 := by
  rw [or_eq_add_of_low (b0 <<< 24) (b1 <<< 16) 24 (by omega) (by omega),
    or_eq_add_of_low _ (b2 <<< 8) 16 (by omega) (by omega),
    or_eq_add_of_low _ b3 8 (by omega) (by omega)]
  omega

/-- The four bytes that `sw` stores for a 32-bit value recombine to the value. -/
theorem be_word_of_bytes (v : Nat) (hv : v < 4294967296) :
    u32 (((v >>> (24 - 8 * 0) &&& 0xFF) <<< 24 ||| (v >>> (24 - 8 * 1) &&& 0xFF) <<< 16
      ||| (v >>> (24 - 8 * 2) &&& 0xFF) <<< 8 ||| (v >>> (24 - 8 * 3) &&& 0xFF) : Nat) : Int)
      = v := by
  rw [land_FF, land_FF, land_FF, land_FF,
    be_word_eq _ _ _ _ (Nat.mod_lt _ (by omega)) (Nat.mod_lt _ (by omega))
      (Nat.mod_lt _ (by omega)), u32_nat]
  norm_num
  omega

/-- The effect of `sw` when its four bytes lie inside `memory[]`. -/
theorem i_format_sw_eq (rs rt immediate : Nat) (s : Machine) (t : Nat)
    (ht : to_int (s.registers rs + sign_extend immediate) = t) (hb : t + 3 < 1048576) :
    i_format 0x2b rs rt immediate s
      = some ((1 : Int), { s with memory := fun j =>
          if j = t + 3 then (s.registers rt >>> (24 - 8 * 3)) &&& 0xFF
          else if j = t + 2 then (s.registers rt >>> (24 - 8 * 2)) &&& 0xFF
          else if j = t + 1 then (s.registers rt >>> (24 - 8 * 1)) &&& 0xFF
          else if j = t then (s.registers rt >>> (24 - 8 * 0)) &&& 0xFF else s.memory j }) := by
  rw [i_format_sw, ht, write_four_eq s _ _ _ _ _ (by omega) (by omega)]
  have e0 : ((t : Int)).toNat = t := by omega
  have e1 : ((t : Int) + 1).toNat = t + 1 := by omega
  have e2 : ((t : Int) + 2).toNat = t + 2 := by omega
  have e3 : ((t : Int) + 3).toNat = t + 3 := by omega
  rw [e0, e1, e2, e3]
  rfl

/-- The effect of `lw` when its four bytes lie inside `memory[]`. -/
theorem i_format_lw_eq (rs rt immediate : Nat) (s : Machine) (t : Nat)
    (ht : to_int (s.registers rs + sign_extend immediate) = t) (hb : t + 3 < 1048576) :
    i_format 0x23 rs rt immediate s
      = some ((1 : Int), set_reg s rt (u32 ((s.memory t <<< 24 ||| s.memory (t + 1) <<< 16
          ||| s.memory (t + 2) <<< 8 ||| s.memory (t + 3) : Nat) : Int))) := by
  rw [i_format_lw, ht, read_word_eq s _ (by omega) (by omega)]
  have e0 : ((t : Int)).toNat = t := by omega
  have e1 : ((t : Int) + 1).toNat = t + 1 := by omega
  have e2 : ((t : Int) + 2).toNat = t + 2 := by omega
  have e3 : ((t : Int) + 3).toNat = t + 3 := by omega
  rw [e0, e1, e2, e3]
  rfl

/-- C10: for register numbers `rs`, `rt`, `rt2` below 32 and a 16-bit immediate
whose target address `t = (registers[rs] + sext(imm)) mod 2^32` satisfies
`t + 3 < 2^20` (aligned or not), `sw rt, imm(rs)` followed by `lw rt2, imm(rs)`
both complete with return value 1 and leave in `registers[rt2]` the (32-bit)
value that `registers[rt]` had before the `sw`. -/
theorem C10_sw_lw_round_trip (s : Machine) (rs rt rt2 imm : Nat) (hrs : rs < 32)
    (hrt : rt < 32) (hrt2 : rt2 < 32) (himm : imm < 65536)
    (hv : s.registers rt < 4294967296)
    (ht : (s.registers rs + (if imm < 0x8000 then (imm : Int) else imm - 0x10000))
        % 4294967296 + 3 < 1048576) :
    ∃ s1 s2, process_instruction (encode_i 0x2b rs rt imm) s = some (1, s1) ∧
      process_instruction (encode_i 0x23 rs rt2 imm) s1 = some (1, s2) ∧
      s2.registers rt2 = s.registers rt := by
  rw [← sign_extend_eq imm himm] at ht
  have htarget : to_int (s.registers rs + sign_extend imm)
      = ((u32 (s.registers rs + sign_extend imm) : Nat) : Int) := by
    unfold to_int u32
    rw [if_neg (by omega)]
    omega
  have hb : u32 (s.registers rs + sign_extend imm) + 3 < 1048576 := by
    unfold u32
    omega
  generalize u32 (s.registers rs + sign_extend imm) = t at htarget hb
  have hsw := i_format_sw_eq rs rt imm s t htarget hb
  rw [← process_instruction_encode_i 0x2b rs rt imm s (by omega) (by omega) (by omega)
    (by omega) hrs hrt himm] at hsw
  have hlw := fun m : Machine =>
    process_instruction_encode_i 0x23 rs rt2 imm m (by omega) (by omega) (by omega)
      (by omega) hrs hrt2 himm
  refine ⟨_, _, hsw, (hlw _).trans (i_format_lw_eq rs rt2 imm _ t htarget hb), ?_⟩
  · rw [set_reg_same]
    have h03 : ¬ t = t + 3 := by omega
    have h02 : ¬ t = t + 2 := by omega
    have h01 : ¬ t = t + 1 := by omega
    have h13 : ¬ t + 1 = t + 3 := by omega
    have h12 : ¬ t + 1 = t + 2 := by omega
    have h23 : ¬ t + 2 = t + 3 := by omega
    simp only [h03, h02, h01, h13, h12, h23, if_false, if_true]
    exact be_word_of_bytes (s.registers rt) hv

/-- Witness of C10 on the initial machine: `sw $s5, 0xFFFD($s0)` then
`lw $t2, 0xFFFD($s0)`, the unaligned target address `0x10 - 3 = 13`. -/
theorem C10_sw_lw_round_trip_witness :
    (initial_machine.registers 21 < 4294967296 ∧
      (initial_machine.registers 16
          + (if 0xFFFD < 0x8000 then ((0xFFFD : Nat) : Int) else (0xFFFD : Nat) - 0x10000))
        % 4294967296 + 3 < 1048576) ∧
    ∃ s1 s2, process_instruction (encode_i 0x2b 16 21 0xFFFD) initial_machine = some (1, s1) ∧
      process_instruction (encode_i 0x23 16 10 0xFFFD) s1 = some (1, s2) ∧
      s2.registers 10 = initial_machine.registers 21 :=
  ⟨by decide, C10_sw_lw_round_trip initial_machine 16 21 10 0xFFFD (by decide) (by decide)
    (by decide) (by decide) (by decide) (by decide)⟩

/-! ## The program loader -/

theorem read_word_nat (s : Machine) (p : Nat) (h : p + 3 < 1048576) :
    read_word s (p : Int) ((p : Int) + 1) ((p : Int) + 2) ((p : Int) + 3)
      = some (be_word s.memory p) := by
  rw [read_word_eq s _ (by omega) (by omega)]
  have e0 : ((p : Int)).toNat = p := by omega
  have e1 : ((p : Int) + 1).toNat = p + 1 := by omega
  have e2 : ((p : Int) + 2).toNat = p + 2 := by omega
  have e3 : ((p : Int) + 3).toNat = p + 3 := by omega
  rw [e0, e1, e2, e3]
  rfl

theorem int_byte_lt (x : Int) (k : Nat) : int_byte x k < 256 := by
  unfold int_byte
  omega

/-- The four bytes that `load_program` stores for `line_number` spell its 32-bit
pattern. -/
theorem int_bytes_word (x : Int) :
    u32 ((int_byte (to_int x) (8 * (3 - 0)) <<< 24 ||| int_byte (to_int x) (8 * (3 - 1)) <<< 16
      ||| int_byte (to_int x) (8 * (3 - 2)) <<< 8 ||| int_byte (to_int x) (8 * (3 - 3)) : Nat)
        : Int) = u32 x := by
  rw [be_word_eq _ _ _ _ (int_byte_lt _ _) (int_byte_lt _ _) (int_byte_lt _ _)]
  unfold int_byte
  simp only [Int.shiftRight_eq_div_pow]
  norm_num
  unfold u32 to_int
  split_ifs <;> omega

/-- One line of `load_program` whose four bytes lie inside `memory[]`. -/
theorem store_line_eq (s : Machine) (x : Int) (hb : s.pc + 3 < 1048576) :
    store_line s x
      = some { s with memory := fun j =>
          if j = s.pc + 3 then int_byte x (8 * (3 - 3))
          else if j = s.pc + 2 then int_byte x (8 * (3 - 2))
          else if j = s.pc + 1 then int_byte x (8 * (3 - 1))
          else if j = s.pc then int_byte x (8 * (3 - 0)) else s.memory j } := by
  unfold store_line
  have a0 : ((u32 ((s.pc + 0 : Nat) : Int) : Nat) : Int) = (s.pc : Int) := by
    rw [u32_nat]
    omega
  have a1 : ((u32 ((s.pc + 1 : Nat) : Int) : Nat) : Int) = (s.pc : Int) + 1 := by
    rw [u32_nat]
    omega
  have a2 : ((u32 ((s.pc + 2 : Nat) : Int) : Nat) : Int) = (s.pc : Int) + 2 := by
    rw [u32_nat]
    omega
  have a3 : ((u32 ((s.pc + 3 : Nat) : Int) : Nat) : Int) = (s.pc : Int) + 3 := by
    rw [u32_nat]
    omega
  rw [a0, a1, a2, a3, write_four_eq s _ _ _ _ _ (by omega) (by omega)]
  have e0 : ((s.pc : Int)).toNat = s.pc := by omega
  have e1 : ((s.pc : Int) + 1).toNat = s.pc + 1 := by omega
  have e2 : ((s.pc : Int) + 2).toNat = s.pc + 2 := by omega
  have e3 : ((s.pc : Int) + 3).toNat = s.pc + 3 := by omega
  rw [e0, e1, e2, e3]

/-- What one stored line leaves behind: the word at `pc`, nothing else touched. -/
theorem store_line_spec (s : Machine) (x : Int) (hb : s.pc + 3 < 1048576) :
    ∃ s1, store_line s (to_int x) = some s1 ∧ s1.pc = s.pc ∧ s1.registers = s.registers ∧
      (∀ a, a < s.pc ∨ s.pc + 4 ≤ a → s1.memory a = s.memory a) ∧
      be_word s1.memory s.pc = u32 x := by
  refine ⟨_, store_line_eq s (to_int x) hb, rfl, rfl, ?_, ?_⟩
  · intro a ha
    show (if a = s.pc + 3 then _ else if a = s.pc + 2 then _ else if a = s.pc + 1 then _
      else if a = s.pc then _ else s.memory a) = s.memory a
    rw [if_neg (by omega), if_neg (by omega), if_neg (by omega), if_neg (by omega)]
  · unfold be_word
    have h03 : ¬ s.pc = s.pc + 3 := by omega
    have h02 : ¬ s.pc = s.pc + 2 := by omega
    have h01 : ¬ s.pc = s.pc + 1 := by omega
    have h13 : ¬ s.pc + 1 = s.pc + 3 := by omega
    have h12 : ¬ s.pc + 1 = s.pc + 2 := by omega
    have h23 : ¬ s.pc + 2 = s.pc + 3 := by omega
    simp only [h03, h02, h01, h13, h12, h23, if_false, if_true]
    exact int_bytes_word x

theorem be_word_congr (m1 m2 : Nat → Nat) (a : Nat)
    (h : ∀ j, a ≤ j → j < a + 4 → m1 j = m2 j) : be_word m1 a = be_word m2 a := by
  unfold be_word
  rw [h a (by omega) (by omega), h (a + 1) (by omega) (by omega),
    h (a + 2) (by omega) (by omega), h (a + 3) (by omega) (by omega)]

theorem load_lines_nil (strtoimax : String → Int) (s : Machine) :
    load_lines strtoimax [] s = some s := rfl

theorem load_lines_cons (strtoimax : String → Int) (line : String) (rest : List String)
    (s : Machine) :
    load_lines strtoimax (line :: rest) s
      = (store_line s (to_int (strtoimax line))).bind fun s1 =>
          load_lines strtoimax rest (set_pc s1 (u32 (s1.pc + 4 : Nat))) := rfl

/-- The loop of `load_program`: the words of the lines are laid out from `pc`
on, `pc` ends behind the last word, nothing else is touched. -/
theorem load_lines_spec (strtoimax : String → Int) (lines : List String) :
    ∀ s : Machine, s.pc + 4 * lines.length ≤ 1048576 →
    ∃ s1, load_lines strtoimax lines s = some s1 ∧
      s1.pc = s.pc + 4 * lines.length ∧ s1.registers = s.registers ∧
      (∀ a, a < s.pc ∨ s.pc + 4 * lines.length ≤ a → s1.memory a = s.memory a) ∧
      (∀ i l, lines[i]? = some l → be_word s1.memory (s.pc + 4 * i) = u32 (strtoimax l)) := by
  induction lines with
  | nil =>
    intro s _
    refine ⟨s, rfl, by simp, rfl, fun _ _ => rfl, ?_⟩
    intro i l h
    simp at h
  | cons line rest ih =>
    intro s hb
    have hlen : (line :: rest).length = rest.length + 1 := rfl
    rw [hlen] at hb ⊢
    obtain ⟨s1, h1, hpc1, hreg1, hmem1, hword1⟩ :=
      store_line_spec s (strtoimax line) (by omega)
    have hnext : u32 ((s1.pc + 4 : Nat) : Int) = s.pc + 4 := by
      rw [u32_nat, hpc1]
      omega
    obtain ⟨s2, h2, hpc2, hreg2, hmem2, hword2⟩ :=
      ih (set_pc s1 (s.pc + 4)) (by show s.pc + 4 + 4 * rest.length ≤ 1048576; omega)
    have hpc2n : s2.pc = s.pc + 4 + 4 * rest.length := hpc2
    have hmem2n : ∀ a, a < s.pc + 4 ∨ s.pc + 4 + 4 * rest.length ≤ a →
        s2.memory a = s1.memory a := hmem2
    have hword2n : ∀ i l, rest[i]? = some l →
        be_word s2.memory (s.pc + 4 + 4 * i) = u32 (strtoimax l) := hword2
    refine ⟨s2, ?_, by omega, hreg2.trans hreg1, ?_, ?_⟩
    · rw [load_lines_cons, h1, Option.some_bind, hnext]
      exact h2
    · intro a ha
      rw [hmem2n a (by omega), hmem1 a (by omega)]
    · intro i l hl
      cases i with
      | zero =>
        rw [List.getElem?_cons_zero] at hl
        cases hl
        rw [Nat.mul_zero, Nat.add_zero,
          be_word_congr s2.memory s1.memory s.pc (fun j _ hj => hmem2n j (by omega))]
        exact hword1
      | succ i =>
        rw [List.getElem?_cons_succ] at hl
        have := hword2n i l hl
        have e : s.pc + 4 * (i + 1) = s.pc + 4 + 4 * i := by omega
        rw [e]
        exact this

theorem halt_line_value : u32 (0xffffffff : Int) = 0xFFFFFFFF := by decide

/-- The whole of `load_program` on a file that opens: the words of the lines,
then the halt word, `pc` left at the halt word, return value `-EINVAL`. -/
theorem load_program_spec (strtoimax : String → Int) (lines : List String) (s : Machine)
    (hb : s.pc + 4 * lines.length + 3 < 1048576) :
    ∃ s1, load_program strtoimax (some lines) s = some (-EINVAL, s1) ∧
      s1.pc = s.pc + 4 * lines.length ∧ s1.registers = s.registers ∧
      (∀ a, a < s.pc ∨ s.pc + 4 * lines.length + 4 ≤ a → s1.memory a = s.memory a) ∧
      (∀ i l, lines[i]? = some l → be_word s1.memory (s.pc + 4 * i) = u32 (strtoimax l)) ∧
      be_word s1.memory (s.pc + 4 * lines.length) = 0xFFFFFFFF := by
  obtain ⟨s1, h1, hpc1, hreg1, hmem1, hword1⟩ :=
    load_lines_spec strtoimax lines s (by omega)
  obtain ⟨s2, h2, hpc2, hreg2, hmem2, hword2⟩ :=
    store_line_spec s1 0xffffffff (by omega)
  refine ⟨s2, ?_, hpc2.trans hpc1, hreg2.trans hreg1, ?_, ?_, ?_⟩
  · show (load_lines strtoimax lines s).bind (fun m =>
      (store_line m (to_int 0xffffffff)).map fun m2 => (-EINVAL, m2)) = _
    rw [h1, Option.some_bind, h2]
    rfl
  · intro a ha
    rw [hmem2 a (by omega), hmem1 a (by omega)]
  · intro i l hl
    have hi : i < lines.length := by
      by_contra hc
      rw [List.getElem?_eq_none (by omega)] at hl
      cases hl
    rw [be_word_congr s2.memory s1.memory _ (fun j _ hj => hmem2 j (by omega))]
    exact hword1 i l hl
  · rw [← hpc1, hword2]
    exact halt_line_value

/-- C2: for every machine state with `pc = p` and every list of `n` lines with
`p + 4n + 3 < 2^20`, `load_program` completes and afterwards the big-endian word
at `p + 4i` is the parsed word of line `i` (the 32-bit pattern of what
`strtoimax` returned) for every `i < n`, the big-endian word at `p + 4n` is the
halt word `0xFFFFFFFF`, `pc` is `p + 4n`, and a line for which `strtoimax`
returns 0 (as it does when no number can be parsed) contributes the word 0. -/
theorem C2_load_program_layout (strtoimax : String → Int) (lines : List String)
    (s : Machine) (hb : s.pc + 4 * lines.length + 3 < 1048576) :
    ∃ r s1, load_program strtoimax (some lines) s = some (r, s1) ∧
      (∀ i l, lines[i]? = some l →
        read_word s1 ((s.pc + 4 * i : Nat) : Int) ((s.pc + 4 * i : Nat) + 1)
          ((s.pc + 4 * i : Nat) + 2) ((s.pc + 4 * i : Nat) + 3)
          = some (u32 (strtoimax l))) ∧
      read_word s1 ((s.pc + 4 * lines.length : Nat) : Int) ((s.pc + 4 * lines.length : Nat) + 1)
          ((s.pc + 4 * lines.length : Nat) + 2) ((s.pc + 4 * lines.length : Nat) + 3)
        = some 0xFFFFFFFF ∧
      s1.pc = s.pc + 4 * lines.length ∧
      (∀ i l, lines[i]? = some l → strtoimax l = 0 →
        read_word s1 ((s.pc + 4 * i : Nat) : Int) ((s.pc + 4 * i : Nat) + 1)
          ((s.pc + 4 * i : Nat) + 2) ((s.pc + 4 * i : Nat) + 3) = some 0) := by
  obtain ⟨s1, h1, hpc, _, _, hword, hhalt⟩ := load_program_spec strtoimax lines s hb
  have hidx : ∀ i l, lines[i]? = some l → i < lines.length := by
    intro i l hl
    by_contra hc
    rw [List.getElem?_eq_none (by omega)] at hl
    cases hl
  have hread : ∀ i l, lines[i]? = some l →
      read_word s1 ((s.pc + 4 * i : Nat) : Int) ((s.pc + 4 * i : Nat) + 1)
          ((s.pc + 4 * i : Nat) + 2) ((s.pc + 4 * i : Nat) + 3)
        = some (u32 (strtoimax l)) := by
    intro i l hl
    have hi := hidx i l hl
    rw [read_word_nat s1 _ (by omega), hword i l hl]
  refine ⟨_, s1, h1, hread, ?_, hpc, ?_⟩
  · rw [read_word_nat s1 _ (by omega), hhalt]
  · intro i l hl hz
    rw [hread i l hl, hz]
    rfl

/-- Witness of C2 on the initial machine with the library model of `strtoimax`:
a three-line file whose second line holds no number. -/
theorem C2_load_program_layout_witness :
    initial_machine.pc + 4 * ["0x8c090008", "oops", "0xac090020 // sw"].length + 3 < 1048576 ∧
    ∃ r s1, load_program strtoimax (some ["0x8c090008", "oops", "0xac090020 // sw"])
        initial_machine = some (r, s1) ∧
      (∀ i l, ["0x8c090008", "oops", "0xac090020 // sw"][i]? = some l →
        read_word s1 ((initial_machine.pc + 4 * i : Nat) : Int)
          ((initial_machine.pc + 4 * i : Nat) + 1)
          ((initial_machine.pc + 4 * i : Nat) + 2) ((initial_machine.pc + 4 * i : Nat) + 3)
          = some (u32 (strtoimax l))) ∧
      read_word s1
          ((initial_machine.pc + 4 * ["0x8c090008", "oops", "0xac090020 // sw"].length : Nat)
            : Int)
          ((initial_machine.pc + 4 * ["0x8c090008", "oops", "0xac090020 // sw"].length : Nat)
            + 1)
          ((initial_machine.pc + 4 * ["0x8c090008", "oops", "0xac090020 // sw"].length : Nat)
            + 2)
          ((initial_machine.pc + 4 * ["0x8c090008", "oops", "0xac090020 // sw"].length : Nat)
            + 3)
        = some 0xFFFFFFFF ∧
      s1.pc = initial_machine.pc + 4 * ["0x8c090008", "oops", "0xac090020 // sw"].length ∧
      (∀ i l, ["0x8c090008", "oops", "0xac090020 // sw"][i]? = some l → strtoimax l = 0 →
        read_word s1 ((initial_machine.pc + 4 * i : Nat) : Int)
          ((initial_machine.pc + 4 * i : Nat) + 1)
          ((initial_machine.pc + 4 * i : Nat) + 2) ((initial_machine.pc + 4 * i : Nat) + 3)
          = some 0) :=
  ⟨by decide, C2_load_program_layout strtoimax ["0x8c090008", "oops", "0xac090020 // sw"]
    initial_machine (by decide)⟩

/-! ## The fetch-execute loop -/

/-- Outside `jr` the r-format branch leaves `pc` and memory alone. -/
theorem r_format_frame (funct rs rt rd shamt : Nat) (s : Machine) (hjr : funct ≠ 0x08) :
    ∃ s1, r_format funct rs rt rd shamt s = some (1, s1) ∧ s1.pc = s.pc ∧
      s1.memory = s.memory := by
  by_cases h1 : funct = 0x20
  · subst h1; exact ⟨_, rfl, rfl, rfl⟩
  by_cases h2 : funct = 0x22
  · subst h2; exact ⟨_, rfl, rfl, rfl⟩
  by_cases h3 : funct = 0x24
  · subst h3; exact ⟨_, rfl, rfl, rfl⟩
  by_cases h4 : funct = 0x25
  · subst h4; exact ⟨_, rfl, rfl, rfl⟩
  by_cases h5 : funct = 0x27
  · subst h5; exact ⟨_, rfl, rfl, rfl⟩
  by_cases h6 : funct = 0x00
  · subst h6; exact ⟨_, rfl, rfl, rfl⟩
  by_cases h7 : funct = 0x02
  · subst h7; exact ⟨_, rfl, rfl, rfl⟩
  by_cases h8 : funct = 0x03
  · subst h8
    rw [r_format_sra]
    by_cases hc : s.registers rt < u32 (to_int ((1 <<< 31 : Nat) : Int))
    · exact ⟨_, if_pos hc, rfl, rfl⟩
    · exact ⟨_, if_neg hc, rfl, rfl⟩
  by_cases h9 : funct = 0x2a
  · subst h9; exact ⟨_, rfl, rfl, rfl⟩
  exact ⟨_, r_format_other funct rs rt rd shamt s ⟨h1, h2, h3, h4, h5, h6, h7, h8, h9, hjr⟩,
    rfl, rfl⟩

/-- Outside `lw`, `sw`, `beq` and `bne` the i-format branch leaves `pc` and
memory alone. -/
theorem i_format_frame (opcode rs rt immediate : Nat) (s : Machine)
    (hlw : opcode ≠ 0x23) (hsw : opcode ≠ 0x2b) (hbeq : opcode ≠ 0x04)
    (hbne : opcode ≠ 0x05) :
    ∃ s1, i_format opcode rs rt immediate s = some (1, s1) ∧ s1.pc = s.pc ∧
      s1.memory = s.memory := by
  by_cases h1 : opcode = 0x08
  · subst h1; exact ⟨_, rfl, rfl, rfl⟩
  by_cases h2 : opcode = 0x0c
  · subst h2; exact ⟨_, rfl, rfl, rfl⟩
  by_cases h3 : opcode = 0x0d
  · subst h3; exact ⟨_, rfl, rfl, rfl⟩
  by_cases h6 : opcode = 0x0a
  · subst h6; exact ⟨_, rfl, rfl, rfl⟩
  exact ⟨_, i_format_other opcode rs rt immediate s ⟨h1, h2, h3, hlw, hsw, h6, hbeq, hbne⟩,
    rfl, rfl⟩

/-- A register-only instruction completes with return value 1 and leaves `pc`
and memory alone. -/
theorem register_only_step (w : Nat) (s : Machine) (hh : w ≠ 0xFFFFFFFF)
    (hw : register_only w) :
    ∃ s1, process_instruction w s = some (1, s1) ∧ s1.pc = s.pc ∧ s1.memory = s.memory := by
  rcases hw with ⟨hop, hf⟩ | ⟨h0, h2, h3, h4, h5, hlw, hsw⟩
  · rw [process_instruction_r w s hh hop]
    exact r_format_frame _ _ _ _ _ s hf
  · rw [process_instruction_i w s hh h0 (by omega)]
    exact i_format_frame _ _ _ _ s hlw hsw h4 h5

/-- One iteration of the loop when the four bytes at `pc` lie inside `memory[]`. -/
theorem fetch_execute_eq (s : Machine) (hb : s.pc + 3 < 1048576) :
    fetch_execute s
      = (process_instruction (be_word s.memory s.pc) (set_pc s (s.pc + 4))).map
          fun r => (be_word s.memory s.pc, r.1, r.2) := by
  unfold fetch_execute
  have a1 : ((u32 ((s.pc + 1 : Nat) : Int) : Nat) : Int) = (s.pc : Int) + 1 := by
    rw [u32_nat]
    omega
  have a2 : ((u32 ((s.pc + 2 : Nat) : Int) : Nat) : Int) = (s.pc : Int) + 2 := by
    rw [u32_nat]
    omega
  have a3 : ((u32 ((s.pc + 3 : Nat) : Int) : Nat) : Int) = (s.pc : Int) + 3 := by
    rw [u32_nat]
    omega
  have a4 : u32 ((s.pc + 4 : Nat) : Int) = s.pc + 4 := by
    rw [u32_nat]
    omega
  rw [a1, a2, a3, a4, read_word_nat s s.pc hb, Option.some_bind]

theorem run_loop_zero (s : Machine) (trace : List Nat) :
    run_loop 0 s trace = Run.unfinished := rfl

theorem run_loop_step (fuel : Nat) (s s1 : Machine) (trace : List Nat) (instr : Nat)
    (flag : Int) (h : fetch_execute s = some (instr, flag, s1)) :
    run_loop (fuel + 1) s trace
      = if flag ≠ 0 then run_loop fuel s1 (trace ++ [instr])
        else Run.returned s1 (trace ++ [instr]) := by
  rw [run_loop, h]

/-- The loop of `run_program` over a stretch of register-only words that the
halt word follows: it runs through the stretch, executes the halt word and
ends, after exactly one iteration per word. -/
theorem run_loop_straight (rest : List Nat) :
    ∀ (s : Machine) (trace : List Nat) (fuel : Nat),
    (∀ w, w ∈ rest → w ≠ 0xFFFFFFFF ∧ register_only w) →
    (∀ i w, rest[i]? = some w → be_word s.memory (s.pc + 4 * i) = w) →
    be_word s.memory (s.pc + 4 * rest.length) = 0xFFFFFFFF →
    s.pc + 4 * rest.length + 3 < 1048576 →
    (rest.length + 1 ≤ fuel →
      ∃ final, run_loop fuel s trace = Run.returned final (trace ++ rest ++ [0xFFFFFFFF]) ∧
        final.pc = s.pc + 4 * rest.length + 4 ∧ final.memory = s.memory) ∧
    (fuel ≤ rest.length → run_loop fuel s trace = Run.unfinished) := by
  induction rest with
  | nil =>
    intro s trace fuel _ _ hhalt hb
    have hstep : fetch_execute s = some (0xFFFFFFFF, 0, set_pc s (s.pc + 4)) := by
      rw [fetch_execute_eq s (by omega)]
      have e : be_word s.memory s.pc = 0xFFFFFFFF := by
        have := hhalt
        rw [List.length_nil, Nat.mul_zero, Nat.add_zero] at this
        exact this
      rw [e, process_instruction_halt]
      rfl
    constructor
    · intro hf
      obtain ⟨f, rfl⟩ : ∃ f, fuel = f + 1 := ⟨fuel - 1, by omega⟩
      rw [run_loop_step f s _ trace _ _ hstep, if_neg (by decide)]
      refine ⟨set_pc s (s.pc + 4), by rw [List.append_nil], ?_, rfl⟩
      show s.pc + 4 = s.pc + 4 * 0 + 4
      omega
    · intro hf
      have : fuel = 0 := by
        rw [List.length_nil] at hf
        omega
      subst this
      rfl
  | cons w rest ih =>
    intro s trace fuel hws hmem hhalt hb
    have hlen : (w :: rest).length = rest.length + 1 := rfl
    rw [hlen] at hhalt hb ⊢
    have hw := hws w (List.mem_cons_self w rest)
    have hfetch : be_word s.memory s.pc = w := by
      have := hmem 0 w (List.getElem?_cons_zero)
      rw [Nat.mul_zero, Nat.add_zero] at this
      exact this
    obtain ⟨s1, hproc, hpc1, hmem1⟩ := register_only_step w (set_pc s (s.pc + 4)) hw.1 hw.2
    have hpc1n : s1.pc = s.pc + 4 := hpc1
    have hmem1n : s1.memory = s.memory := hmem1
    have hstep : fetch_execute s = some (w, 1, s1) := by
      rw [fetch_execute_eq s (by omega), hfetch, hproc]
      rfl
    obtain ⟨hrun, hout⟩ := ih s1 (trace ++ [w]) (fuel - 1)
      (fun x hx => hws x (List.mem_cons_of_mem w hx))
      (by
        intro i x hx
        rw [hmem1n, hpc1n]
        have := hmem (i + 1) x (by rw [List.getElem?_cons_succ]; exact hx)
        have e : s.pc + 4 + 4 * i = s.pc + 4 * (i + 1) := by omega
        rw [e]
        exact this)
      (by
        rw [hmem1n, hpc1n]
        have e : s.pc + 4 + 4 * rest.length = s.pc + 4 * (rest.length + 1) := by omega
        rw [e]
        exact hhalt)
      (by rw [hpc1n]; omega)
    constructor
    · intro hf
      obtain ⟨f, rfl⟩ : ∃ f, fuel = f + 1 := ⟨fuel - 1, by omega⟩
      rw [run_loop_step f s _ trace _ _ hstep, if_pos (by decide)]
      obtain ⟨final, hfin, hfpc, hfmem⟩ := hrun (by omega)
      have ef : f + 1 - 1 = f := by omega
      rw [ef] at hfin
      refine ⟨final, ?_, by omega, hfmem.trans hmem1n⟩
      rw [hfin]
      simp only [List.append_assoc, List.singleton_append]
    · intro hf
      by_cases h0 : fuel = 0
      · subst h0
        rfl
      · obtain ⟨f, rfl⟩ : ∃ f, fuel = f + 1 := ⟨fuel - 1, by omega⟩
        rw [run_loop_step f s _ trace _ _ hstep, if_pos (by decide)]
        have ef : f + 1 - 1 = f := by omega
        rw [ef] at hout
        exact hout (by omega)

/-- C1: for every list of `n` lines (with `0x1000 + 4n + 4 <= 2^20`) whose parsed
words are register-only instructions and none of them `0xFFFFFFFF`, loading the
list with `pc = INITIAL_PC` completes, and `run_program` afterwards ends: with
at least `n + 1` iterations allowed it returns, having executed exactly the `n`
loaded words in order followed by the appended halt word, with
`pc = 0x1000 + 4n + 4`; with `n` iterations or fewer the loop is still running. -/
theorem C1_straight_line_program_halts (strtoimax : String → Int) (lines : List String)
    (s : Machine) (hpc : s.pc = INITIAL_PC)
    (hsize : 0x1000 + 4 * lines.length + 4 ≤ 1048576)
    (hwords : ∀ l, l ∈ lines →
      u32 (strtoimax l) ≠ 0xFFFFFFFF ∧ register_only (u32 (strtoimax l))) :
    ∃ r s1, load_program strtoimax (some lines) s = some (r, s1) ∧
      (∀ fuel, lines.length + 1 ≤ fuel →
        ∃ final, run_program fuel s1
            = Run.returned final (lines.map (fun l => u32 (strtoimax l)) ++ [0xFFFFFFFF]) ∧
          final.pc = 0x1000 + 4 * lines.length + 4) ∧
      (∀ fuel, fuel ≤ lines.length → run_program fuel s1 = Run.unfinished) := by
  have hpc0 : s.pc = 0x1000 := hpc
  obtain ⟨s1, hload, _, _, _, hword, hhalt⟩ :=
    load_program_spec strtoimax lines s (by omega)
  rw [hpc0] at hword hhalt
  have hlen : (lines.map (fun l => u32 (strtoimax l))).length = lines.length :=
    List.length_map _ _
  have hstart : (set_pc s1 INITIAL_PC).pc = 0x1000 := rfl
  have hrun := fun fuel => run_loop_straight (lines.map (fun l => u32 (strtoimax l)))
    (set_pc s1 INITIAL_PC) [] fuel
    (by
      intro w hw
      obtain ⟨l, hl, rfl⟩ := List.mem_map.1 hw
      exact hwords l hl)
    (by
      intro i w hw
      rw [List.getElem?_map] at hw
      cases hl : lines[i]? with
      | none =>
        rw [hl] at hw
        cases hw
      | some l =>
        rw [hl] at hw
        cases hw
        rw [hstart]
        exact hword i l hl)
    (by
      rw [hstart, hlen]
      exact hhalt)
    (by
      rw [hstart, hlen]
      omega)
  refine ⟨_, s1, hload, ?_, ?_⟩
  · intro fuel hf
    obtain ⟨final, hfin, hfpc, _⟩ := (hrun fuel).1 (by rw [hlen]; exact hf)
    refine ⟨final, ?_, ?_⟩
    · rw [List.nil_append] at hfin
      exact hfin
    · rw [hfpc, hstart, hlen]
  · intro fuel hf
    exact (hrun fuel).2 (by rw [hlen]; exact hf)

/-- Witness of C1 on the initial machine with the library model of `strtoimax`:
three lines of `0x20080005` (`addi $t0, $zr, 5`). -/
theorem C1_straight_line_program_halts_witness :
    (initial_machine.pc = INITIAL_PC ∧
      0x1000 + 4 * ["0x20080005", "0x20080005", "0x20080005"].length + 4 ≤ 1048576 ∧
      ∀ l, l ∈ ["0x20080005", "0x20080005", "0x20080005"] →
        u32 (strtoimax l) ≠ 0xFFFFFFFF ∧ register_only (u32 (strtoimax l))) ∧
    ∃ r s1, load_program strtoimax (some ["0x20080005", "0x20080005", "0x20080005"])
        initial_machine = some (r, s1) ∧
      (∀ fuel, ["0x20080005", "0x20080005", "0x20080005"].length + 1 ≤ fuel →
        ∃ final, run_program fuel s1
            = Run.returned final
                (["0x20080005", "0x20080005", "0x20080005"].map (fun l => u32 (strtoimax l))
                  ++ [0xFFFFFFFF]) ∧
          final.pc = 0x1000 + 4 * ["0x20080005", "0x20080005", "0x20080005"].length + 4) ∧
      (∀ fuel, fuel ≤ ["0x20080005", "0x20080005", "0x20080005"].length →
        run_program fuel s1 = Run.unfinished) :=
  have hw : ∀ l, l ∈ ["0x20080005", "0x20080005", "0x20080005"] →
      u32 (strtoimax l) ≠ 0xFFFFFFFF ∧ register_only (u32 (strtoimax l)) := by
    intro l hl
    have e : l = "0x20080005" := by
      simp only [List.mem_cons, List.mem_singleton, List.mem_nil_iff, or_false, or_self] at hl
      exact hl
    subst e
    have hv : u32 (strtoimax "0x20080005") = 0x20080005 := by decide
    rw [hv]
    exact ⟨by decide, Or.inr (by decide)⟩
  ⟨⟨rfl, by decide, hw⟩,
    C1_straight_line_program_halts strtoimax ["0x20080005", "0x20080005", "0x20080005"]
      initial_machine rfl (by decide) hw⟩

/-! ## Stores, comparisons and logical immediates -/

/-- C11: for every machine state and every `sw` with register numbers below 32
and a 16-bit immediate whose target `t = (registers[rs] + sext(imm)) mod 2^32`
satisfies `t + 3 < 2^20`, the instruction completes with return value 1 and
afterwards `memory[t + i] = (registers[rt] >> (24 - 8i)) & 0xFF` for
`i = 0..3`, the most significant byte at the lowest address; every other memory
byte, every register and `pc` are unchanged. -/
theorem C11_sw_big_endian_frame (s : Machine) (rs rt imm t : Nat) (hrs : rs < 32)
    (hrt : rt < 32) (himm : imm < 65536)
    (ht : ((t : Nat) : Int)
      = (s.registers rs + (if imm < 0x8000 then (imm : Int) else imm - 0x10000))
          % 4294967296)
    (hb : t + 3 < 1048576) :
    ∃ s1, process_instruction (encode_i 0x2b rs rt imm) s = some (1, s1) ∧
      (∀ i, i < 4 → s1.memory (t + i) = (s.registers rt >>> (24 - 8 * i)) &&& 0xFF) ∧
      (∀ a, a < t ∨ t + 4 ≤ a → s1.memory a = s.memory a) ∧
      s1.registers = s.registers ∧ s1.pc = s.pc := by
  rw [← sign_extend_eq imm himm] at ht
  have htarget : to_int (s.registers rs + sign_extend imm) = (t : Int) := by
    unfold to_int
    rw [if_neg (by omega)]
    omega
  have hsw := i_format_sw_eq rs rt imm s t htarget hb
  rw [← process_instruction_encode_i 0x2b rs rt imm s (by omega) (by omega) (by omega)
    (by omega) hrs hrt himm] at hsw
  refine ⟨_, hsw, ?_, ?_, rfl, rfl⟩
  · intro i hi
    show (if t + i = t + 3 then _ else if t + i = t + 2 then _ else if t + i = t + 1 then _
      else if t + i = t then _ else s.memory (t + i)) = _
    have hcases : i = 0 ∨ i = 1 ∨ i = 2 ∨ i = 3 := by omega
    rcases hcases with h | h | h | h <;> subst h
    · rw [if_neg (by omega), if_neg (by omega), if_neg (by omega), if_pos (by omega)]
    · rw [if_neg (by omega), if_neg (by omega), if_pos rfl]
    · rw [if_neg (by omega), if_pos rfl]
    · rw [if_pos rfl]
  · intro a ha
    show (if a = t + 3 then _ else if a = t + 2 then _ else if a = t + 1 then _
      else if a = t then _ else s.memory a) = s.memory a
    rw [if_neg (by omega), if_neg (by omega), if_neg (by omega), if_neg (by omega)]

/-- Witness of C11 on the initial machine: `sw $s4, 2($s0)`, the unaligned target
address `0x12`. -/
theorem C11_sw_big_endian_frame_witness :
    (((18 : Nat) : Int)
        = (initial_machine.registers 16
            + (if 2 < 0x8000 then ((2 : Nat) : Int) else (2 : Nat) - 0x10000)) % 4294967296 ∧
      18 + 3 < 1048576) ∧
    ∃ s1, process_instruction (encode_i 0x2b 16 20 2) initial_machine = some (1, s1) ∧
      (∀ i, i < 4 →
        s1.memory (18 + i) = (initial_machine.registers 20 >>> (24 - 8 * i)) &&& 0xFF) ∧
      (∀ a, a < 18 ∨ 18 + 4 ≤ a → s1.memory a = initial_machine.memory a) ∧
      s1.registers = initial_machine.registers ∧ s1.pc = initial_machine.pc :=
  ⟨⟨by decide, by decide⟩,
    C11_sw_big_endian_frame initial_machine 16 20 2 18 (by decide) (by decide) (by decide)
      (by decide) (by decide)⟩

theorem to_int_of_u32 (v : Nat) (hv : v < 4294967296) :
    to_int (v : Int) = if v < 2147483648 then (v : Int) else (v : Int) - 4294967296 := by
  unfold to_int
  split_ifs <;> omega

/-- C12: for 32-bit register values and register numbers below 32, `slt`
completes with return value 1 and sets `registers[rd]` to 1 when the two's
complement value of `registers[rs]` is less than that of `registers[rt]` and to 0
otherwise; `slti` sets `registers[rt]` to 1 when the two's complement value of
`registers[rs]` is less than the sign-extended immediate and to 0 otherwise.
With `registers[rs] = 0xFFFFFFFF` against the value 0 (or the immediate 0) the
result is 1. -/
theorem C12_slt_slti_signed (s : Machine) (rs rt rd shamt imm : Nat) (hrs : rs < 32)
    (hrt : rt < 32) (hrd : rd < 32) (hsh : shamt < 32) (himm : imm < 65536)
    (hvs : s.registers rs < 4294967296) (hvt : s.registers rt < 4294967296) :
    (∃ s1, process_instruction (encode_r rs rt rd shamt 0x2a) s = some (1, s1) ∧
      s1.registers rd
        = (if (if s.registers rs < 2147483648 then (s.registers rs : Int)
                else (s.registers rs : Int) - 4294967296)
              < (if s.registers rt < 2147483648 then (s.registers rt : Int)
                else (s.registers rt : Int) - 4294967296) then 1 else 0) ∧
      (s.registers rs = 0xFFFFFFFF → s.registers rt = 0 → s1.registers rd = 1)) ∧
    (∃ s1, process_instruction (encode_i 0x0a rs rt imm) s = some (1, s1) ∧
      s1.registers rt
        = (if (if s.registers rs < 2147483648 then (s.registers rs : Int)
                else (s.registers rs : Int) - 4294967296)
              < (if imm < 0x8000 then (imm : Int) else (imm : Int) - 0x10000) then 1 else 0) ∧
      (s.registers rs = 0xFFFFFFFF → imm = 0 → s1.registers rt = 1)) := by
  have hslt : process_instruction (encode_r rs rt rd shamt 0x2a) s
      = some ((1 : Int), set_reg s rd
          (if to_int (s.registers rs) < to_int (s.registers rt) then 1 else 0)) := by
    rw [process_instruction_encode_r rs rt rd shamt 0x2a s hrs hrt hrd hsh (by omega)]
    rfl
  have hslti : process_instruction (encode_i 0x0a rs rt imm) s
      = some ((1 : Int), set_reg s rt
          (if to_int (s.registers rs) < sign_extend imm then 1 else 0)) := by
    rw [process_instruction_encode_i 0x0a rs rt imm s (by omega) (by omega) (by omega)
      (by omega) hrs hrt himm]
    rfl
  rw [to_int_of_u32 _ hvs, to_int_of_u32 _ hvt] at hslt
  rw [to_int_of_u32 _ hvs, sign_extend_eq imm himm] at hslti
  refine ⟨⟨_, hslt, set_reg_same s rd _, ?_⟩, ⟨_, hslti, set_reg_same s rt _, ?_⟩⟩
  · intro h1 h2
    rw [set_reg_same, h1, h2]
    decide
  · intro h1 h2
    rw [set_reg_same, h1, h2]
    decide

/-- Witness of C12 on the initial machine: `slt $v0, $s6, $s3` and
`slti $s3, $s6, 0x8000`, with `s6 = 0xffffffff` and `s3 = 3`. -/
theorem C12_slt_slti_signed_witness :
    (initial_machine.registers 22 < 4294967296 ∧
      initial_machine.registers 19 < 4294967296) ∧
    ∃ s1, process_instruction (encode_r 22 19 2 0 0x2a) initial_machine = some (1, s1) ∧
      s1.registers 2
        = (if (if initial_machine.registers 22 < 2147483648
                then (initial_machine.registers 22 : Int)
                else (initial_machine.registers 22 : Int) - 4294967296)
              < (if initial_machine.registers 19 < 2147483648
                then (initial_machine.registers 19 : Int)
                else (initial_machine.registers 19 : Int) - 4294967296) then 1 else 0) ∧
      (initial_machine.registers 22 = 0xFFFFFFFF → initial_machine.registers 19 = 0 →
        s1.registers 2 = 1) :=
  ⟨⟨by decide, by decide⟩,
    (C12_slt_slti_signed initial_machine 22 19 2 0 0x8000 (by decide) (by decide)
      (by decide) (by decide) (by decide) (by decide) (by decide)).1⟩

theorem shift16_lor (a b : Nat) (hb : b < 65536) : (a ||| b) >>> 16 = a >>> 16 := by
  apply Nat.eq_of_testBit_eq
  intro j
  rw [Nat.testBit_shiftRight, Nat.testBit_shiftRight, Nat.testBit_or]
  have hpow : 2 ^ 16 ≤ 2 ^ (16 + j) := Nat.pow_le_pow_right (by omega) (by omega)
  have hlt : b < 2 ^ (16 + j) := by omega
  rw [Nat.testBit_lt_two_pow hlt, Bool.or_false]

/-- C13: for register numbers below 32 and every 16-bit immediate (also from
`0x8000` on), `andi` completes with return value 1 and sets `registers[rt]` to
`registers[rs] & imm` with the immediate zero-extended, a value below `2^16`;
`ori` sets `registers[rt]` to `registers[rs] | imm`, whose upper 16 bits are
the upper 16 bits of `registers[rs]`.  Other registers, memory and `pc` are
unchanged. -/
theorem C13_andi_ori_zero_extended (s : Machine) (rs rt imm : Nat) (hrs : rs < 32)
    (hrt : rt < 32) (himm : imm < 65536) :
    (∃ s1, process_instruction (encode_i 0x0c rs rt imm) s = some (1, s1) ∧
      s1.registers rt = s.registers rs &&& imm ∧ s1.registers rt < 65536 ∧
      (∀ i, i ≠ rt → s1.registers i = s.registers i) ∧
      s1.memory = s.memory ∧ s1.pc = s.pc) ∧
    (∃ s1, process_instruction (encode_i 0x0d rs rt imm) s = some (1, s1) ∧
      s1.registers rt = s.registers rs ||| imm ∧
      s1.registers rt >>> 16 = s.registers rs >>> 16 ∧
      (∀ i, i ≠ rt → s1.registers i = s.registers i) ∧
      s1.memory = s.memory ∧ s1.pc = s.pc) := by
  have handi : process_instruction (encode_i 0x0c rs rt imm) s
      = some ((1 : Int), set_reg s rt (s.registers rs &&& imm)) := by
    rw [process_instruction_encode_i 0x0c rs rt imm s (by omega) (by omega) (by omega)
      (by omega) hrs hrt himm]
    rfl
  have hori : process_instruction (encode_i 0x0d rs rt imm) s
      = some ((1 : Int), set_reg s rt (s.registers rs ||| imm)) := by
    rw [process_instruction_encode_i 0x0d rs rt imm s (by omega) (by omega) (by omega)
      (by omega) hrs hrt himm]
    rfl
  refine ⟨⟨_, handi, set_reg_same s rt _, ?_, fun i hi => set_reg_other s rt _ i hi,
    rfl, rfl⟩, ⟨_, hori, set_reg_same s rt _, ?_, fun i hi => set_reg_other s rt _ i hi,
    rfl, rfl⟩⟩
  · rw [set_reg_same]
    exact lt_of_le_of_lt Nat.and_le_right himm
  · rw [set_reg_same]
    exact shift16_lor _ _ himm

/-- Witness of C13 on the initial machine: `andi $t0, $s6, 0xFFFF` and
`ori $t0, $s6, 0xFFFF`, with `s6 = 0xffffffff`. -/
theorem C13_andi_ori_zero_extended_witness :
    ∃ s1, process_instruction (encode_i 0x0c 22 8 0xFFFF) initial_machine = some (1, s1) ∧
      s1.registers 8 = initial_machine.registers 22 &&& 0xFFFF ∧ s1.registers 8 < 65536 ∧
      (∀ i, i ≠ 8 → s1.registers i = initial_machine.registers i) ∧
      s1.memory = initial_machine.memory ∧ s1.pc = initial_machine.pc :=
  (C13_andi_ori_zero_extended initial_machine 22 8 0xFFFF (by decide) (by decide)
    (by decide)).1

/-! ## Unsupported words -/

/-- C14: for every machine state and every word other than `0xFFFFFFFF` that is
not a supported instruction (opcode 0 with a funct outside the ten r-format
functs, or an opcode outside the eleven supported opcodes),
`process_instruction` completes and the machine afterwards is the machine
before: every register, every memory byte and `pc` are unchanged. -/
theorem C14_unsupported_word_no_change (s : Machine) (instr : Nat)
    (hh : instr ≠ 0xFFFFFFFF)
    (hunknown :
      (instr >>> 26 = 0 ∧
        instr &&& 0x3F ≠ 0x20 ∧ instr &&& 0x3F ≠ 0x22 ∧ instr &&& 0x3F ≠ 0x24 ∧
        instr &&& 0x3F ≠ 0x25 ∧ instr &&& 0x3F ≠ 0x27 ∧ instr &&& 0x3F ≠ 0x00 ∧
        instr &&& 0x3F ≠ 0x02 ∧ instr &&& 0x3F ≠ 0x03 ∧ instr &&& 0x3F ≠ 0x2a ∧
        instr &&& 0x3F ≠ 0x08) ∨
      (instr >>> 26 ≠ 0 ∧ instr >>> 26 ≠ 0x02 ∧ instr >>> 26 ≠ 0x03 ∧
        instr >>> 26 ≠ 0x08 ∧ instr >>> 26 ≠ 0x0c ∧ instr >>> 26 ≠ 0x0d ∧
        instr >>> 26 ≠ 0x23 ∧ instr >>> 26 ≠ 0x2b ∧ instr >>> 26 ≠ 0x0a ∧
        instr >>> 26 ≠ 0x04 ∧ instr >>> 26 ≠ 0x05)) :
    ∃ r s1, process_instruction instr s = some (r, s1) ∧
      (∀ i, s1.registers i = s.registers i) ∧ (∀ a, s1.memory a = s.memory a) ∧
      s1.pc = s.pc := by
  rcases hunknown with ⟨hop, hf⟩ | ⟨h0, h2, h3, h8, hc, hd, hlw, hsw, ha, h4, h5⟩
  · refine ⟨1, s, ?_, fun _ => rfl, fun _ => rfl, rfl⟩
    rw [process_instruction_r instr s hh hop]
    exact r_format_other _ _ _ _ _ s hf
  · refine ⟨1, s, ?_, fun _ => rfl, fun _ => rfl, rfl⟩
    rw [process_instruction_i instr s hh h0 (by omega)]
    exact i_format_other _ _ _ _ s ⟨h8, hc, hd, hlw, hsw, ha, h4, h5⟩

/-- Witness of C14 on the initial machine at the word `0x00000001` (opcode 0,
funct 1). -/
theorem C14_unsupported_word_no_change_witness :
    ∃ r s1, process_instruction 0x00000001 initial_machine = some (r, s1) ∧
      (∀ i, s1.registers i = initial_machine.registers i) ∧
      (∀ a, s1.memory a = initial_machine.memory a) ∧ s1.pc = initial_machine.pc :=
  C14_unsupported_word_no_change initial_machine 0x00000001 (by decide)
    (Or.inl (by decide))

/-! ## Register 0 -/

/-- The value that an r-format instruction computes does not depend on the
destination register, and it is stored there whatever its number. -/
theorem r_format_destination (funct rs rt shamt : Nat) (s : Machine)
    (hf : funct = 0x20 ∨ funct = 0x22 ∨ funct = 0x24 ∨ funct = 0x25 ∨ funct = 0x27 ∨
      funct = 0x00 ∨ funct = 0x02 ∨ funct = 0x03 ∨ funct = 0x2a) :
    ∃ v, ∀ rd, r_format funct rs rt rd shamt s = some (1, set_reg s rd v) := by
  rcases hf with h | h | h | h | h | h | h | h | h <;> subst h
  · exact ⟨_, fun _ => rfl⟩
  · exact ⟨_, fun _ => rfl⟩
  · exact ⟨_, fun _ => rfl⟩
  · exact ⟨_, fun _ => rfl⟩
  · exact ⟨_, fun _ => rfl⟩
  · exact ⟨_, fun _ => rfl⟩
  · exact ⟨_, fun _ => rfl⟩
  · by_cases hc : s.registers rt < u32 (to_int ((1 <<< 31 : Nat) : Int))
    · refine ⟨s.registers rt >>> shamt, fun rd => ?_⟩
      rw [r_format_sra, if_pos hc]
    · refine ⟨sra_loop shamt (s.registers rt >>> shamt), fun rd => ?_⟩
      rw [r_format_sra, if_neg hc]
  · exact ⟨_, fun _ => rfl⟩

/-- The value that `addi`, `andi`, `ori` or `slti` computes does not depend on
the destination register, and it is stored there whatever its number. -/
theorem i_format_destination (opcode rs immediate : Nat) (s : Machine)
    (hop : opcode = 0x08 ∨ opcode = 0x0c ∨ opcode = 0x0d ∨ opcode = 0x0a) :
    ∃ v, ∀ rt, i_format opcode rs rt immediate s = some (1, set_reg s rt v) := by
  rcases hop with h | h | h | h <;> subst h
  · exact ⟨_, fun _ => rfl⟩
  · exact ⟨_, fun _ => rfl⟩
  · exact ⟨_, fun _ => rfl⟩
  · exact ⟨_, fun _ => rfl⟩

/-- C15: register 0 is an ordinary register.  For every machine state, every
r-format instruction that writes a register (`add`, `sub`, `and`, `or`, `nor`,
`sll`, `srl`, `sra`, `slt`) and each of `addi`, `andi`, `ori`, `slti` computes a
value `v` that does not depend on the destination and stores it in the
destination register whatever its number, register 0 included, leaving the
other registers alone; an `addi` that reads register 0 afterwards adds to the
value stored there.  From the initial machine `0x20000005` followed by
`0x20080005` leaves `registers[0] = 5` and `registers[8] = 10`. -/
theorem C15_register_zero_not_hardwired (s : Machine) (funct opcode rs rt shamt imm : Nat)
    (hrs : rs < 32) (hrt : rt < 32) (hsh : shamt < 32) (himm : imm < 65536)
    (hf : funct = 0x20 ∨ funct = 0x22 ∨ funct = 0x24 ∨ funct = 0x25 ∨ funct = 0x27 ∨
      funct = 0x00 ∨ funct = 0x02 ∨ funct = 0x03 ∨ funct = 0x2a)
    (hop : opcode = 0x08 ∨ opcode = 0x0c ∨ opcode = 0x0d ∨ opcode = 0x0a) :
    (∃ v, ∀ rd, rd < 32 →
      ∃ s1, process_instruction (encode_r rs rt rd shamt funct) s = some (1, s1) ∧
        s1.registers rd = v ∧ ∀ i, i ≠ rd → s1.registers i = s.registers i) ∧
    (∃ v, ∀ rd, rd < 32 →
      ∃ s1, process_instruction (encode_i opcode rs rd imm) s = some (1, s1) ∧
        s1.registers rd = v ∧ ∀ i, i ≠ rd → s1.registers i = s.registers i) ∧
    (∃ s1, process_instruction (encode_i 0x08 0 rt imm) s = some (1, s1) ∧
      (s1.registers rt : Int)
        = (s.registers 0 + (if imm < 0x8000 then (imm : Int) else imm - 0x10000))
            % 4294967296) ∧
    (∃ s1 s2, process_instruction 0x20000005 initial_machine = some (1, s1) ∧
      process_instruction 0x20080005 s1 = some (1, s2) ∧
      s2.registers 0 = 5 ∧ s2.registers 8 = 10) := by
  have haddi : ∀ (m : Machine) (a b c : Nat), a < 32 → b < 32 → c < 65536 →
      process_instruction (encode_i 0x08 a b c) m
        = some (1, set_reg m b (u32 (m.registers a + sign_extend c))) := by
    intro m a b c ha hb hc
    rw [process_instruction_encode_i 0x08 a b c m (by omega) (by omega) (by omega)
      (by omega) ha hb hc]
    rfl
  refine ⟨?_, ?_, ?_, ?_⟩
  · obtain ⟨v, hv⟩ := r_format_destination funct rs rt shamt s hf
    refine ⟨v, fun rd hrd => ⟨set_reg s rd v, ?_, set_reg_same s rd v,
      fun i hi => set_reg_other s rd v i hi⟩⟩
    rw [process_instruction_encode_r rs rt rd shamt funct s hrs hrt hrd hsh (by omega)]
    exact hv rd
  · obtain ⟨v, hv⟩ := i_format_destination opcode rs imm s hop
    refine ⟨v, fun rd hrd => ⟨set_reg s rd v, ?_, set_reg_same s rd v,
      fun i hi => set_reg_other s rd v i hi⟩⟩
    rw [process_instruction_encode_i opcode rs rd imm s (by omega) (by omega) (by omega)
      (by omega) hrs hrd himm]
    exact hv rd
  · refine ⟨_, haddi s 0 rt imm (by omega) hrt himm, ?_⟩
    rw [set_reg_same, sign_extend_eq imm himm]
    unfold u32
    omega
  · have h1 := haddi initial_machine 0 0 5 (by omega) (by omega) (by omega)
    have h2 := haddi (set_reg initial_machine 0
      (u32 (initial_machine.registers 0 + sign_extend 5))) 0 8 5 (by omega) (by omega)
      (by omega)
    have e1 : (0x20000005 : Nat) = encode_i 0x08 0 0 5 := by decide
    have e2 : (0x20080005 : Nat) = encode_i 0x08 0 8 5 := by decide
    rw [← e1] at h1
    rw [← e2] at h2
    refine ⟨_, _, h1, h2, ?_, ?_⟩
    · rw [set_reg_other _ 8 _ 0 (by omega), set_reg_same]
      decide
    · rw [set_reg_same, set_reg_same]
      decide

/-- Witness of C15 on the initial machine: `sub` and `andi` with the operands
`s3 = 3` and `s7 = 7`. -/
theorem C15_register_zero_not_hardwired_witness :
    ∃ v, ∀ rd, rd < 32 →
      ∃ s1, process_instruction (encode_r 19 23 rd 0 0x22) initial_machine = some (1, s1) ∧
        s1.registers rd = v ∧ ∀ i, i ≠ rd → s1.registers i = initial_machine.registers i :=
  (C15_register_zero_not_hardwired initial_machine 0x22 0x0c 19 23 0 7 (by decide)
    (by decide) (by decide) (by decide) (Or.inr (Or.inl rfl)) (Or.inr (Or.inl rfl))).1

/-! ## Return values against the documentation -/

/-- C16 (the code departs from it): a word outside the documented table is
executed as a no-op with return value 1, not 0.  Shown at `0x00000001`
(opcode 0, funct 1) and at `0xFC000000` (opcode `0x3f`), in every machine
state. -/
theorem C16_unknown_instruction_returns_one (s : Machine) :
    process_instruction 0x00000001 s = some (1, s) ∧
    process_instruction 0xFC000000 s = some (1, s) :=
  ⟨rfl, rfl⟩

/-- C17 (the code departs from it): a program file that opens and loads makes
`load_program` return `-EINVAL`, that is -22, not 0.  Shown for the three-line
file of `0x20080005` loaded into the initial machine, with the library model of
`strtoimax`. -/
theorem C17_load_program_returns_einval :
    ∃ r s1, load_program strtoimax (some ["0x20080005", "0x20080005", "0x20080005"])
        initial_machine = some (r, s1) ∧ r = -22 ∧ r ≠ 0 := by
  obtain ⟨s1, h, _⟩ := load_program_spec strtoimax
    ["0x20080005", "0x20080005", "0x20080005"] initial_machine (by decide)
  exact ⟨_, s1, h, rfl, by decide⟩

/-- C18 (the code departs from it): `load_program` stores from the current `pc`
on and never sets `pc` to `INITIAL_PC`.  After a first file `0x20080005` has
been loaded into the initial machine, loading a second file `0x20090007` puts
its first instruction at `0x1004`; the word at `0x1000` is still `0x20080005`,
and `run_program` executes that word first. -/
theorem C18_second_load_misses_initial_pc :
    ∃ r1 s1 r2 s2,
      load_program strtoimax (some ["0x20080005"]) initial_machine = some (r1, s1) ∧
      load_program strtoimax (some ["0x20090007"]) s1 = some (r2, s2) ∧
      be_word s2.memory 0x1000 = 0x20080005 ∧
      be_word s2.memory 0x1004 = 0x20090007 ∧
      ∃ final, run_program 3 s2 = Run.returned final [0x20080005, 0x20090007, 0xFFFFFFFF] := by
  obtain ⟨s1, h1, hpc1, _, _, hword1, _⟩ :=
    load_program_spec strtoimax ["0x20080005"] initial_machine (by decide)
  have hpc1n : s1.pc = 0x1004 := hpc1
  obtain ⟨s2, h2, _, _, hmem2, hword2, hhalt2⟩ :=
    load_program_spec strtoimax ["0x20090007"] s1 (by rw [hpc1n]; decide)
  rw [hpc1n] at hmem2 hword2 hhalt2
  have hv1 : u32 (strtoimax "0x20080005") = 0x20080005 := by decide
  have hv2 : u32 (strtoimax "0x20090007") = 0x20090007 := by decide
  have hfirst : be_word s2.memory 0x1000 = 0x20080005 := by
    rw [be_word_congr s2.memory s1.memory 0x1000 (fun j _ hj => hmem2 j (by omega))]
    have := hword1 0 "0x20080005" rfl
    rw [hv1] at this
    exact this
  have hsecond : be_word s2.memory 0x1004 = 0x20090007 := by
    have := hword2 0 "0x20090007" rfl
    rw [hv2] at this
    exact this
  have hhalt : be_word s2.memory 0x1008 = 0xFFFFFFFF := hhalt2
  have hrun := (run_loop_straight [0x20080005, 0x20090007] (set_pc s2 INITIAL_PC) [] 3
    (by
      intro w hw
      simp only [List.mem_cons, List.mem_singleton, List.mem_nil_iff, or_false] at hw
      rcases hw with h | h <;> subst h
      · exact ⟨by decide, Or.inr (by decide)⟩
      · exact ⟨by decide, Or.inr (by decide)⟩)
    (by
      intro i w hw
      have hcases : i = 0 ∨ i = 1 ∨ 2 ≤ i := by omega
      rcases hcases with h | h | h
      · subst h
        cases hw
        exact hfirst
      · subst h
        cases hw
        exact hsecond
      · rw [List.getElem?_eq_none (by simpa using h)] at hw
        cases hw)
    hhalt (by show (4096 : Nat) + 4 * 2 + 3 < 1048576; omega)).1 (by decide)
  obtain ⟨final, hfin, _⟩ := hrun
  exact ⟨_, s1, _, s2, h1, h2, hfirst, hsecond, final, hfin⟩

/-! ## A program that never halts -/

/-- One iteration at `pc = 0x1000` when the word there is `beq $zr,$zr,-1`:
it returns 1 and `pc` is `0x1000` again. -/
theorem beq_self_step (m : Machine) (hpc : m.pc = 0x1000)
    (hword : be_word m.memory 0x1000 = 0x1000FFFF) :
    ∃ m1, fetch_execute m = some (0x1000FFFF, 1, m1) ∧ m1.pc = 0x1000 ∧
      m1.memory = m.memory ∧ m1.registers = m.registers := by
  have hbeq : ∀ x : Machine, process_instruction 0x1000FFFF x
      = some ((1 : Int), set_pc x (u32 (x.pc + 4 * sign_extend 0xFFFF))) := by
    intro x
    have e : (0x1000FFFF : Nat) = encode_i 0x04 0 0 0xFFFF := by decide
    rw [e, process_instruction_encode_i 0x04 0 0 0xFFFF x (by omega) (by omega) (by omega)
      (by omega) (by omega) (by omega) (by omega), i_format_beq, if_pos rfl]
  refine ⟨set_pc (set_pc m (m.pc + 4))
    (u32 (((m.pc + 4 : Nat) : Int) + 4 * sign_extend 0xFFFF)), ?_, ?_, rfl, rfl⟩
  · have hw : be_word m.memory m.pc = 0x1000FFFF := by
      rw [hpc]
      exact hword
    rw [fetch_execute_eq m (by omega), hw, hbeq]
    rfl
  · show u32 (((m.pc + 4 : Nat) : Int) + 4 * sign_extend 0xFFFF) = 0x1000
    rw [hpc]
    decide

theorem run_iterations_step (k : Nat) (s s1 : Machine) (instr : Nat) (flag : Int)
    (h : fetch_execute s = some (instr, flag, s1)) :
    run_iterations (k + 1) s
      = if flag ≠ 0 then (run_iterations k s1).map fun r => ((instr, flag) :: r.1, r.2)
        else none := by
  rw [run_iterations, h]

/-- C19: with the single instruction `beq $zr,$zr,-1` (a line whose parsed word
is `0x1000FFFF`) loaded at `INITIAL_PC`, the halt word lies at `0x1004` and the
loop of `run_program` never ends: for every `k` the first `k` iterations all
fetch `0x1000FFFF`, `process_instruction` returns 1 each time, and `pc` is
`0x1000` at the next fetch; whatever the number of iterations allowed,
`run_program` is still running. -/
theorem C19_beq_self_loop_never_halts (strtoimax : String → Int) (line : String)
    (s : Machine) (hpc : s.pc = INITIAL_PC) (hline : u32 (strtoimax line) = 0x1000FFFF) :
    ∃ r s1, load_program strtoimax (some [line]) s = some (r, s1) ∧
      be_word s1.memory 0x1000 = 0x1000FFFF ∧ be_word s1.memory 0x1004 = 0xFFFFFFFF ∧
      (∀ k, ∃ m, run_iterations k (set_pc s1 INITIAL_PC)
          = some (List.replicate k (0x1000FFFF, 1), m) ∧ m.pc = 0x1000) ∧
      (∀ fuel, run_program fuel s1 = Run.unfinished) := by
  have hpc0 : s.pc = 0x1000 := hpc
  obtain ⟨s1, hload, _, _, _, hword, hhalt⟩ :=
    load_program_spec strtoimax [line] s
      (by rw [hpc0]; show (4096 : Nat) + 4 * 1 + 3 < 1048576; omega)
  rw [hpc0] at hword hhalt
  have hfirst : be_word s1.memory 0x1000 = 0x1000FFFF := by
    have := hword 0 line rfl
    rw [hline] at this
    exact this
  have hiter : ∀ k (m : Machine), m.pc = 0x1000 → m.memory = s1.memory →
      ∃ m1, run_iterations k m = some (List.replicate k (0x1000FFFF, 1), m1) ∧
        m1.pc = 0x1000 := by
    intro k
    induction k with
    | zero =>
      intro m hm _
      exact ⟨m, rfl, hm⟩
    | succ k ih =>
      intro m hm hmem
      obtain ⟨m1, hstep, hpc1, hmem1, _⟩ := beq_self_step m hm (by rw [hmem]; exact hfirst)
      obtain ⟨m2, hrest, hpc2⟩ := ih m1 hpc1 (hmem1.trans hmem)
      refine ⟨m2, ?_, hpc2⟩
      rw [run_iterations_step k m m1 _ _ hstep, if_pos (by decide), hrest]
      rfl
  have hloop : ∀ fuel (m : Machine) (trace : List Nat), m.pc = 0x1000 →
      m.memory = s1.memory → run_loop fuel m trace = Run.unfinished := by
    intro fuel
    induction fuel with
    | zero =>
      intro m trace _ _
      rfl
    | succ fuel ih =>
      intro m trace hm hmem
      obtain ⟨m1, hstep, hpc1, hmem1, _⟩ := beq_self_step m hm (by rw [hmem]; exact hfirst)
      rw [run_loop_step fuel m m1 trace _ _ hstep, if_pos (by decide)]
      exact ih m1 _ hpc1 (hmem1.trans hmem)
  refine ⟨_, s1, hload, hfirst, hhalt, ?_, ?_⟩
  · intro k
    exact hiter k (set_pc s1 INITIAL_PC) rfl rfl
  · intro fuel
    exact hloop fuel (set_pc s1 INITIAL_PC) [] rfl rfl

/-- Witness of C19 on the initial machine with the library model of `strtoimax`
and the line `0x1000FFFF`. -/
theorem C19_beq_self_loop_never_halts_witness :
    (initial_machine.pc = INITIAL_PC ∧ u32 (strtoimax "0x1000FFFF") = 0x1000FFFF) ∧
    ∃ r s1, load_program strtoimax (some ["0x1000FFFF"]) initial_machine = some (r, s1) ∧
      be_word s1.memory 0x1000 = 0x1000FFFF ∧ be_word s1.memory 0x1004 = 0xFFFFFFFF ∧
      (∀ k, ∃ m, run_iterations k (set_pc s1 INITIAL_PC)
          = some (List.replicate k (0x1000FFFF, 1), m) ∧ m.pc = 0x1000) ∧
      (∀ fuel, run_program fuel s1 = Run.unfinished) :=
  ⟨⟨rfl, by decide⟩,
    C19_beq_self_loop_never_halts strtoimax "0x1000FFFF" initial_machine rfl (by decide)⟩

/-! ## Call and return -/

/-- C20: with `pc = p` and a 26-bit address field `a`, `jal a` followed by
`jr $ra` (`0x03E00008`) both complete with return value 1 and leave `pc = p`
and `registers[31] = p`, every other register and all memory unchanged; in
general `jr` sets `pc` to `registers[rs]` exactly and changes nothing else. -/
theorem C20_jal_jr_round_trip (s : Machine) (a rs rt rd shamt : Nat) (ha : a < 67108864)
    (hrs : rs < 32) (hrt : rt < 32) (hrd : rd < 32) (hsh : shamt < 32) :
    (∃ s1 s2, process_instruction (encode_j 0x03 a) s = some (1, s1) ∧
      process_instruction 0x03E00008 s1 = some (1, s2) ∧
      s2.pc = s.pc ∧ s2.registers 31 = s.pc ∧
      (∀ i, i ≠ 31 → s2.registers i = s.registers i) ∧ s2.memory = s.memory) ∧
    (∃ s1, process_instruction (encode_r rs rt rd shamt 0x08) s = some (1, s1) ∧
      s1.pc = s.registers rs ∧ s1.registers = s.registers ∧ s1.memory = s.memory) := by
  have hjr : ∀ (m : Machine) (x y z w : Nat), x < 32 → y < 32 → z < 32 → w < 32 →
      process_instruction (encode_r x y z w 0x08) m
        = some ((1 : Int), set_pc m (m.registers x)) := by
    intro m x y z w hx hy hz hw
    rw [process_instruction_encode_r x y z w 0x08 m hx hy hz hw (by omega)]
    rfl
  have hjal : process_instruction (encode_j 0x03 a) s
      = some ((1 : Int), set_pc (set_reg s 31 s.pc)
          (u32 (to_int ((s.pc &&& 0x10000000 : Nat) : Int) + ((a <<< 2 : Nat) : Int)))) := by
    rw [process_instruction_encode_j 0x03 a s (Or.inr rfl) ha]
    rfl
  have hword : (0x03E00008 : Nat) = encode_r 31 0 0 0 0x08 := by decide
  have hret := hjr (set_pc (set_reg s 31 s.pc)
    (u32 (to_int ((s.pc &&& 0x10000000 : Nat) : Int) + ((a <<< 2 : Nat) : Int))))
    31 0 0 0 (by omega) (by omega) (by omega) (by omega)
  rw [← hword] at hret
  refine ⟨⟨_, _, hjal, hret, ?_, ?_, ?_, rfl⟩, ⟨_, hjr s rs rt rd shamt hrs hrt hrd hsh,
    rfl, rfl, rfl⟩⟩
  · exact set_reg_same s 31 s.pc
  · exact set_reg_same s 31 s.pc
  · intro i hi
    exact set_reg_other s 31 s.pc i hi

/-- Witness of C20 on the initial machine: `jal 0x400` then `jr $ra`, and
`jr $s1`. -/
theorem C20_jal_jr_round_trip_witness :
    (0x400 : Nat) < 67108864 ∧
    ∃ s1 s2, process_instruction (encode_j 0x03 0x400) initial_machine = some (1, s1) ∧
      process_instruction 0x03E00008 s1 = some (1, s2) ∧
      s2.pc = initial_machine.pc ∧ s2.registers 31 = initial_machine.pc ∧
      (∀ i, i ≠ 31 → s2.registers i = initial_machine.registers i) ∧
      s2.memory = initial_machine.memory :=
  ⟨by decide, (C20_jal_jr_round_trip initial_machine 0x400 17 0 0 0 (by decide) (by decide)
    (by decide) (by decide) (by decide)).1⟩

end PA2
